import Mathlib

/-!
# Shallow embedding of the email-to-subscription inference pipeline

This file embeds, in Lean, the subscription inference pipeline of the
repository (`src/services/subscriptionService.ts`) and the persistence
merge loop of `src/services/gmailServices.ts`, and proves the behavioural
claims about them.

Modelling conventions:
* JavaScript strings are Lean `String`s (lists of characters); the
  case-folding of `String.prototype.toLowerCase` is modelled on the ASCII
  range (all catalog names, keywords and currency codes are ASCII).
* JavaScript numbers produced by `parseFloat` on matched amount strings
  (digit runs with an optional two-digit fraction) are modelled as exact
  rationals `ℚ`; every comparison the code performs on them (`> 0`,
  `>= 5`, `<= 10000`, `< 5`) agrees with the IEEE-754 double comparison
  for such values.
* Timestamps are integer milliseconds since the epoch.  A JavaScript
  `Date` object is modelled by `JSDate`: either a valid millisecond
  timestamp or the `Invalid Date` value (`NaN` time value).
* The ambient clock (`new Date()` / `Date.now()`) and the JavaScript
  date-string parser (`new Date(string)`) are passed explicitly in an
  environment `ScanEnv`; the clock is modelled as frozen for the duration
  of one scan.
* Exceptions escaping `parseSubscriptionsFromEmails` (the `RangeError`
  thrown by `Date.prototype.toISOString` on an invalid date) are modelled
  with `Except String`.
-/

/-! ## JavaScript string primitives -/

/-- `String.prototype.toLowerCase`, modelled on the ASCII range. -/
def jsToLower (s : String) : String :=
  ⟨s.data.map Char.toLower⟩

/-- `t` is a leading segment of `s` (on character lists). -/
def leadsChars : List Char → List Char → Bool
  | [], _ => true
  | _ :: _, [] => false
  | a :: as, b :: bs => a == b && leadsChars as bs

/-- `t` occurs contiguously inside `s` (on character lists). -/
def containsChars (s t : List Char) : Bool :=
  match s with
  | [] => t.isEmpty
  | _ :: rest => leadsChars t s || containsChars rest t

/-- `String.prototype.includes`. -/
def jsIncludes (s t : String) : Bool :=
  containsChars s.data t.data

/-- Character class `\s` of JavaScript regular expressions (ASCII part
plus NBSP; the exotic Unicode space code points never occur in the
texts handled here). -/
def isJsWs (c : Char) : Bool :=
  c == ' ' || c == '\t' || c == '\n' || c == '\r' ||
  c == '\x0b' || c == '\x0c' || c == ' '

/-- `String.prototype.trim` (strip leading/trailing `\s`). -/
def jsTrim (s : String) : String :=
  ⟨((s.data.dropWhile isJsWs).reverse.dropWhile isJsWs).reverse⟩

/-- `.split("\n")[0]`: everything before the first newline. -/
def firstLine (s : String) : String :=
  ⟨s.data.takeWhile (· ≠ '\n')⟩

/-! ## Amount and currency extraction (`extractAmount`)

The source matches, in priority order, the four regular expressions

`/(\$|USD)\s?([0-9]{1,3}(?:,?[0-9]{3})*(?:\.[0-9]{2})?)/i` (and the
analogous `₦|NGN`, `€|EUR`, `£|GBP` ones), taking the first (leftmost)
match of the first pattern that matches.  The matchers below implement
exactly these regular expressions: at each start position the two
marker alternatives are tried in order (case-insensitively), then one
optional `\s` character, then the number.  The number part is greedy
and — because nothing follows it in the pattern — never backtracks:
up to three leading digits, then `(,?[0-9]{3})*` groups, then an
optional `.[0-9]{2}` fraction. -/

/-- Case-insensitive literal match of `m` at the head of `s`; returns the
actually matched characters (original case) and the remainder. -/
def matchMarker : List Char → List Char → Option (List Char × List Char)
  | [], s => some ([], s)
  | _ :: _, [] => none
  | a :: as, b :: bs =>
    if a.toLower == b.toLower then
      (matchMarker as bs).map (fun r => (b :: r.1, r.2))
    else none

/-- Take at most `n` leading decimal digits. -/
def takeDigitsUpTo : Nat → List Char → List Char × List Char
  | 0, s => ([], s)
  | _ + 1, [] => ([], [])
  | n + 1, c :: cs =>
    if c.isDigit then
      let r := takeDigitsUpTo n cs
      (c :: r.1, r.2)
    else ([], c :: cs)

/-- The `(,?[0-9]{3})*` part: greedily consume groups of an optional
comma followed by exactly three digits. -/
def matchGroups : List Char → List Char × List Char
  | ',' :: d1 :: d2 :: d3 :: rest =>
    if d1.isDigit && d2.isDigit && d3.isDigit then
      let r := matchGroups rest
      (',' :: d1 :: d2 :: d3 :: r.1, r.2)
    else ([], ',' :: d1 :: d2 :: d3 :: rest)
  | d1 :: d2 :: d3 :: rest =>
    if d1.isDigit && d2.isDigit && d3.isDigit then
      let r := matchGroups rest
      (d1 :: d2 :: d3 :: r.1, r.2)
    else ([], d1 :: d2 :: d3 :: rest)
  | s => ([], s)

/-- The `(\.[0-9]{2})?` part. -/
def matchFrac : List Char → List Char × List Char
  | '.' :: d1 :: d2 :: rest =>
    if d1.isDigit && d2.isDigit then (['.', d1, d2], rest)
    else ([], '.' :: d1 :: d2 :: rest)
  | s => ([], s)

/-- The full number part `[0-9]{1,3}(?:,?[0-9]{3})*(?:\.[0-9]{2})?`.
Returns the captured characters and the remainder. -/
def matchNumber (s : List Char) : Option (List Char × List Char) :=
  let d := takeDigitsUpTo 3 s
  if d.1.isEmpty then none
  else
    let g := matchGroups d.2
    let f := matchFrac g.2
    some (d.1 ++ g.1 ++ f.1, f.2)

/-- The `\s?` and number tail after a matched marker `sym`: one
optional whitespace character (greedy, and backtracking is vacuous
because a whitespace is never a digit), then the number.  Returns the
marker text paired with the captured number text. -/
def numberAfter (sym rest : List Char) : Option (List Char × List Char) :=
  match rest with
  | c :: cs =>
    if isJsWs c then (matchNumber cs).map (fun n => (sym, n.1))
    else (matchNumber (c :: cs)).map (fun n => (sym, n.1))
  | [] => none

/-- One currency pattern at a fixed start position: marker alternative
`m1` or `m2` (in that order), one optional `\s` character, then the
number.  Returns the matched marker text and the captured number text. -/
def matchPatternAt (m1 m2 s : List Char) : Option (List Char × List Char) :=
  match matchMarker m1 s with
  | some r =>
    match numberAfter r.1 r.2 with
    | some v => some v
    | none =>
      match matchMarker m2 s with
      | some r2 => numberAfter r2.1 r2.2
      | none => none
  | none =>
    match matchMarker m2 s with
    | some r2 => numberAfter r2.1 r2.2
    | none => none

/-- Leftmost match of one currency pattern: try every start position from
the left. -/
def scanPattern (m1 m2 : List Char) : List Char → Option (List Char × List Char)
  | [] => none
  | c :: rest =>
    match matchPatternAt m1 m2 (c :: rest) with
    | some v => some v
    | none => scanPattern m1 m2 rest

/-- Numeric value of a digit run. -/
def digitsToNat (cs : List Char) : Nat :=
  cs.foldl (fun a c => a * 10 + (c.toNat - 48)) 0

/-- `parseFloat` on a cleaned amount string (digits with an optional
fraction), as an exact rational. -/
def parseDecimalQ (cs : List Char) : ℚ :=
  let ip := cs.takeWhile (· ≠ '.')
  let rest := cs.dropWhile (· ≠ '.')
  match rest with
  | '.' :: fr =>
    mkRat (Int.ofNat (digitsToNat ip * 10 ^ fr.length + digitsToNat fr)) (10 ^ fr.length)
  | _ => mkRat (Int.ofNat (digitsToNat ip)) 1

/-- `amountStr.replace(/,/g, "")`. -/
def stripCommas (cs : List Char) : List Char :=
  cs.filter (· ≠ ',')

/-- Result record of `extractAmount` (both fields may be absent). -/
structure AmountResult where
  amount : Option ℚ
  currency : Option String
deriving Repr, DecidableEq

/-- The currency-resolution chain of the source (case-sensitive
`String.prototype.includes` checks on the matched marker text, `"USD"`
as the final fallback). -/
def resolveCurrency (sym : String) : String :=
  if jsIncludes sym "₦" || jsIncludes sym "NGN" then "NGN"
  else if jsIncludes sym "$" || jsIncludes sym "USD" then "USD"
  else if jsIncludes sym "€" || jsIncludes sym "EUR" then "EUR"
  else if jsIncludes sym "£" || jsIncludes sym "GBP" then "GBP"
  else "USD"

/-- Build the result from a successful pattern match. -/
def amountFromMatch (r : List Char × List Char) : AmountResult :=
  ⟨some (parseDecimalQ (stripCommas r.2)), some (resolveCurrency ⟨r.1⟩)⟩

/-- `extractAmount` of `src/services/subscriptionService.ts` (lines
110–152): the four currency patterns are tried in the fixed order
USD, NGN, EUR, GBP and the first one that matches wins. -/
def extractAmount (text : String) : AmountResult :=
  let cs := text.data
  match scanPattern "$".data "USD".data cs with
  | some r => amountFromMatch r
  | none =>
    match scanPattern "₦".data "NGN".data cs with
    | some r => amountFromMatch r
    | none =>
      match scanPattern "€".data "EUR".data cs with
      | some r => amountFromMatch r
      | none =>
        match scanPattern "£".data "GBP".data cs with
        | some r => amountFromMatch r
        | none => ⟨none, none⟩

/-! ## Dates -/

/-- A JavaScript `Date` value: a valid millisecond timestamp or the
`Invalid Date` value (`NaN` internal time value). -/
inductive JSDate where
  | valid (ms : Int)
  | invalid
deriving Repr, DecidableEq

/-- `Math.max` on integers (`Math.max(0, x)` in the recency bonus). -/
def intMax (a b : Int) : Int :=
  if a < b then b else a

/-- Milliseconds in one day. -/
def msPerDay : Int := 86400000

/-- `date-fns` `addDays` (on an invalid date it yields an invalid
date); a calendar day is modelled as exactly 86 400 000 ms. -/
def jsAddDays (d : JSDate) (n : Int) : JSDate :=
  match d with
  | .valid ms => .valid (ms + n * msPerDay)
  | .invalid => .invalid

/-- `Date.prototype.toISOString`: on an invalid date it throws
`RangeError: Invalid time value`; the ISO rendering of a valid date is
modelled by its millisecond timestamp. -/
def dateToISO (d : JSDate) : Except String Int :=
  match d with
  | .valid ms => .ok ms
  | .invalid => .error "RangeError: Invalid time value"

/-! ## Raw messages (`EmailMsg` / Gmail payload tree) -/

/-- One entry of `payload.headers`; a header object always carries a
name, its value may be missing. -/
structure EmailHeader where
  name : String
  value : Option String
deriving Repr, DecidableEq

/-- The Gmail `payload` tree: headers, an optional declared MIME type,
the optional base64 body (`body.data`, collapsing the `body?.data`
optional chain) and the optional list of sub-parts. -/
inductive Payload where
  | mk (headers : List EmailHeader) (mimeType : Option String)
      (bodyData : Option String) (parts : Option (List Payload))

/-- The header list of a payload. -/
def Payload.headers : Payload → List EmailHeader
  | .mk h _ _ _ => h

/-- The declared MIME type of a payload. -/
def Payload.mimeType : Payload → Option String
  | .mk _ m _ _ => m

/-- The base64 body data of a payload. -/
def Payload.bodyData : Payload → Option String
  | .mk _ _ b _ => b

/-- The sub-parts of a payload. -/
def Payload.parts : Payload → Option (List Payload)
  | .mk _ _ _ p => p

/-- The `EmailMsg` input record of the pipeline. -/
structure EmailMsg where
  id : String
  snippet : Option String
  payload : Option Payload

/-- JavaScript truthiness of an optional string (absent and `""` are
falsy). -/
def truthyStr (o : Option String) : Bool :=
  o.getD "" ≠ ""

/-- Case-insensitive header lookup
(`headers.find(h => h.name.toLowerCase() === key)?.value`). -/
def headerValue (headers : List EmailHeader) (key : String) : Option String :=
  (headers.find? (fun h => jsToLower h.name == key)).bind (·.value)

/-! ## Base64 and UTF-8 decoding (`Buffer.from(data, "base64").toString("utf8")`)

Node's base64 decoder is forgiving: characters outside the base64
alphabet (including padding `=`) are skipped, and a trailing group of
fewer than four alphabet characters contributes the bytes its bits
complete.  The byte sequence is then interpreted as UTF-8. -/

/-- Value of one base64 alphabet character. -/
def b64Val (c : Char) : Option Nat :=
  if 'A' ≤ c ∧ c ≤ 'Z' then some (c.toNat - 65)
  else if 'a' ≤ c ∧ c ≤ 'z' then some (c.toNat - 97 + 26)
  else if '0' ≤ c ∧ c ≤ '9' then some (c.toNat - 48 + 52)
  else if c = '+' then some 62
  else if c = '/' then some 63
  else none

/-- Decode a filtered run of base64 values into bytes. -/
def b64Bytes : List Nat → List Nat
  | a :: b :: c :: d :: rest =>
    (a * 4 + b / 16) :: ((b % 16) * 16 + c / 4) :: ((c % 4) * 64 + d) :: b64Bytes rest
  | [a, b] => [a * 4 + b / 16]
  | [a, b, c] => [a * 4 + b / 16, (b % 16) * 16 + c / 4]
  | _ => []

/-- Base64-decode a string to its byte sequence. -/
def b64Decode (s : String) : List Nat :=
  b64Bytes (s.data.filterMap b64Val)

/-- A UTF-8 continuation byte. -/
def isContByte (c : Nat) : Bool :=
  0x80 ≤ c && c < 0xC0

/-- Assemble a two-byte UTF-8 sequence. -/
def utf8Mk2 (b c : Nat) : Char :=
  Char.ofNat ((b - 0xC0) * 64 + (c - 0x80))

/-- Assemble a three-byte UTF-8 sequence. -/
def utf8Mk3 (b c d : Nat) : Char :=
  Char.ofNat ((b - 0xE0) * 4096 + (c - 0x80) * 64 + (d - 0x80))

/-- Assemble a four-byte UTF-8 sequence. -/
def utf8Mk4 (b c d e : Nat) : Char :=
  Char.ofNat ((b - 0xF0) * 262144 + (c - 0x80) * 4096 + (d - 0x80) * 64 + (e - 0x80))

/-- UTF-8 decoding of a byte sequence (malformed sequences yield the
U+FFFD replacement character, as Node's decoder does). -/
def utf8Decode : List Nat → List Char
  | [] => []
  | [b] => if b < 0x80 then [Char.ofNat b] else ['�']
  | [b, c] =>
    if b < 0x80 then Char.ofNat b :: utf8Decode [c]
    else if b < 0xC0 then '�' :: utf8Decode [c]
    else if b < 0xE0 then
      if isContByte c then [utf8Mk2 b c] else '�' :: utf8Decode [c]
    else ['�']
  | [b, c, d] =>
    if b < 0x80 then Char.ofNat b :: utf8Decode [c, d]
    else if b < 0xC0 then '�' :: utf8Decode [c, d]
    else if b < 0xE0 then
      if isContByte c then utf8Mk2 b c :: utf8Decode [d] else '�' :: utf8Decode [c, d]
    else if b < 0xF0 then
      if isContByte c && isContByte d then [utf8Mk3 b c d] else '�' :: utf8Decode [c, d]
    else ['�']
  | b :: c :: d :: e :: bs =>
    if b < 0x80 then Char.ofNat b :: utf8Decode (c :: d :: e :: bs)
    else if b < 0xC0 then '�' :: utf8Decode (c :: d :: e :: bs)
    else if b < 0xE0 then
      if isContByte c then utf8Mk2 b c :: utf8Decode (d :: e :: bs)
      else '�' :: utf8Decode (c :: d :: e :: bs)
    else if b < 0xF0 then
      if isContByte c && isContByte d then utf8Mk3 b c d :: utf8Decode (e :: bs)
      else '�' :: utf8Decode (c :: d :: e :: bs)
    else
      if isContByte c && isContByte d && isContByte e then utf8Mk4 b c d e :: utf8Decode bs
      else '�' :: utf8Decode (c :: d :: e :: bs)

/-- The `decode` helper of `decodeEmailBody` (base64 to UTF-8 text; it
never fails on the inputs Node accepts, so the `catch` branch is
unreachable). -/
def b64ToString (s : String) : String :=
  ⟨utf8Decode (b64Decode s)⟩

/-- Modelled from the spec: the external `html-to-text` conversion used
by the body decoder (§4.1) — the library itself is not part of the
repository.  Per the spec it strips tags, skips images, ignores
hyperlink targets and preserves the text content; it is modelled as
removal of every `<...>` tag span.  `inTag` is true while inside a
tag. -/
def stripTagsAux : Bool → List Char → List Char
  | _, [] => []
  | true, c :: cs => if c = '>' then stripTagsAux false cs else stripTagsAux true cs
  | false, c :: cs => if c = '<' then stripTagsAux true cs else c :: stripTagsAux false cs

/-- Modelled from the spec: `htmlToPlain` (the configured `htmlToText`
call of the source). -/
def htmlToPlain (s : String) : String :=
  ⟨stripTagsAux false s.data⟩

/-! ## Body decoding (`decodeEmailBody`) -/

mutual

/-- The per-part extractor of the multipart branch of `decodeEmailBody`:
a part with (truthy) `body.data` is base64-decoded and converted from
HTML when its declared MIME type contains `"html"`; otherwise its
sub-parts (when the `parts` property exists) are extracted recursively;
otherwise it contributes the empty string. -/
def extractPart : Payload → String
  | .mk _ mime bodyData parts =>
    if truthyStr bodyData then
      let raw := b64ToString (bodyData.getD "")
      if jsIncludes (jsToLower (mime.getD "")) "html" then htmlToPlain raw else raw
    else
      match parts with
      | some ps => extractList ps
      | none => ""

/-- `.map(...).join(" ")` over the sub-parts. -/
def extractList : List Payload → String
  | [] => ""
  | [p] => extractPart p
  | p :: ps => extractPart p ++ " " ++ extractList ps

end

/-- `decodeEmailBody` of `src/services/subscriptionService.ts` (lines
27–78): absent payload yields `""`; a (truthy) `body.data` is base64
decoded and HTML-converted when the MIME type contains `"html"` or the
raw text contains `"<html"`; otherwise a (truthy, i.e. non-empty)
`parts` list is extracted recursively and joined; the result is always
lowercased. -/
def decodeEmailBody : Option Payload → String
  | none => ""
  | some p =>
    if truthyStr p.bodyData then
      let raw := b64ToString (p.bodyData.getD "")
      let mime := jsToLower (p.mimeType.getD "")
      let text := if jsIncludes mime "html" || jsIncludes raw "<html" then htmlToPlain raw else raw
      jsToLower text
    else
      match p.parts with
      | some ps => if ps.isEmpty then "" else jsToLower (extractList ps)
      | none => ""

/-! ## Provider catalog and `findProvider` -/

/-- One entry of the provider catalog (`subs.json`, loaded at process
start; the pipeline is parametrised by its contents). -/
structure CatalogEntry where
  name : String
  tag : String
deriving Repr, DecidableEq

/-- One entry of the precomputed `knownProviders` lookup. -/
structure KnownProvider where
  name : String
  tag : String
  originalName : String
deriving Repr, DecidableEq

/-- `knownProviders`: every catalog name lowercased once. -/
def knownProviders (catalog : List CatalogEntry) : List KnownProvider :=
  catalog.map (fun s => ⟨jsToLower s.name, s.tag, s.name⟩)

/-- A successful provider identification (display name and tag). -/
structure ProviderHit where
  name : String
  tag : String
deriving Repr, DecidableEq

/-- `findProvider` of `src/services/subscriptionService.ts` (lines
81–108): `null` when the payload is absent; otherwise the first catalog
entry whose lowercased name occurs in the `From` header, else the first
one occurring in the decoded text. -/
def findProvider (catalog : List CatalogEntry) (payload : Option Payload)
    (fullText : String) : Option ProviderHit :=
  match payload with
  | none => none
  | some p =>
    let fromHeader := jsToLower ((headerValue p.headers "from").getD "")
    match (knownProviders catalog).find? (fun kp => jsIncludes fromHeader kp.name) with
    | some kp => some ⟨kp.originalName, kp.tag⟩
    | none =>
      match (knownProviders catalog).find? (fun kp => jsIncludes fullText kp.name) with
      | some kp => some ⟨kp.originalName, kp.tag⟩
      | none => none

/-! ## Relevance keyword filter -/

/-- The fixed relevance keyword set of the pipeline's gate
(`/(subscription|renew|renewal|invoice|receipt|charged|payment|processed|billed)/i`). -/
def relevanceKeywords : List String :=
  ["subscription", "renew", "renewal", "invoice", "receipt",
   "charged", "payment", "processed", "billed"]

/-- The relevance test: the case-insensitive regex alternation matches
iff some keyword occurs in the lowercased text. -/
def isSubscriptionLike (text : String) : Bool :=
  relevanceKeywords.any (fun k => jsIncludes (jsToLower text) k)

/-! ## Product-name guess

`/(plan|subscription|membership|premium|pro|plus|monthly|annual)[\s:]*([A-Za-z0-9 -]+)/i`
followed by `.trim().split("\n")[0]` on the second capture. -/

/-- The product token alternatives, in the order the regex tries them. -/
def productTokens : List String :=
  ["plan", "subscription", "membership", "premium", "pro", "plus",
   "monthly", "annual"]

/-- Character class `[A-Za-z0-9 -]`. -/
def isProdChar (c : Char) : Bool :=
  ('A' ≤ c && c ≤ 'Z') || ('a' ≤ c && c ≤ 'z') || ('0' ≤ c && c ≤ '9') ||
  c == ' ' || c == '-'

/-- Character class `[\s:]`. -/
def isWsColon (c : Char) : Bool :=
  isJsWs c || c == ':'

/-- The `[\s:]*([A-Za-z0-9 -]+)` tail: the star is greedy and backtracks
until the `+` group can take at least one character. -/
def starThenCapture : List Char → Option (List Char)
  | [] => none
  | c :: cs =>
    if isWsColon c then
      match starThenCapture cs with
      | some cap => some cap
      | none =>
        if isProdChar c then some ((c :: cs).takeWhile isProdChar) else none
    else if isProdChar c then some ((c :: cs).takeWhile isProdChar)
    else none

/-- Try the token alternatives (in order) at this start position; on a
token match, match the capture tail. -/
def matchProductAt (s : List Char) : Option (List Char) :=
  match productTokens.findSome? (fun t => (matchMarker t.data s).map (·.2)) with
  | some rest => starThenCapture rest
  | none => none

/-- Leftmost match of the product regex. -/
def scanProduct : List Char → Option (List Char)
  | [] => none
  | c :: rest =>
    match matchProductAt (c :: rest) with
    | some cap => some cap
    | none => scanProduct rest

/-- The product-name guess of the pipeline:
`prodMatch[2].trim().split("\n")[0]` when the regex matches. -/
def extractProduct (text : String) : Option String :=
  (scanProduct text.data).map (fun cap => firstLine (jsTrim ⟨cap⟩))

/-! ## The pipeline (`parseSubscriptionsFromEmails`) -/

/-- The `rawData` audit blob of a candidate (the `sentDate` ISO string
is modelled by the millisecond timestamp it renders). -/
structure RawData where
  messageId : String
  subject : String
  snippet : Option String
  sentDate : Int
deriving Repr, DecidableEq

/-- The `ParsedSub` record produced by the pipeline. -/
structure ParsedSub where
  provider : String
  tag : Option String := none
  product : Option String := none
  amount : Option ℚ := none
  currency : Option String := none
  startDate : Option JSDate := none
  nextBilling : Option JSDate := none
  rawData : Option RawData := none
deriving Repr, DecidableEq

/-- Scan environment: the provider catalog (contents of `subs.json`),
the frozen clock (`new Date()` / `Date.now()`, in ms) and the
JavaScript date-string parser (`new Date(string)`; `none` models an
unparseable string, i.e. an `Invalid Date` result). -/
structure ScanEnv where
  catalog : List CatalogEntry
  now : Int
  parseDate : String → Option Int

/-- The `fullText` a message is processed with:
`decodeEmailBody(m.payload) || (m.snippet || "").toLowerCase()`. -/
def fullTextOf (m : EmailMsg) : String :=
  let decodedBody := decodeEmailBody m.payload
  if decodedBody ≠ "" then decodedBody else jsToLower (m.snippet.getD "")

/-- The `sentDate` of a qualifying message: the `Date` header parsed by
the JavaScript date parser when the header value is truthy (an
unparseable value gives an `Invalid Date`), else the current time. -/
def sentDateOf (env : ScanEnv) (m : EmailMsg) : JSDate :=
  let headers := (m.payload.map Payload.headers).getD []
  match headerValue headers "date" with
  | some s =>
    if s = "" then .valid env.now
    else
      match env.parseDate s with
      | some t => .valid t
      | none => .invalid
  | none => .valid env.now

/-- The loop body of step 1 of `parseSubscriptionsFromEmails` (lines
160–244) for one message: `.ok none` when a gate excludes the message,
`.ok (some c)` when a candidate is built, `.error` when building the
candidate throws (`toISOString` on an invalid sent date). -/
def messageCandidate (env : ScanEnv) (m : EmailMsg) : Except String (Option ParsedSub) :=
  let fullText := fullTextOf m
  match findProvider env.catalog m.payload fullText with
  | none => .ok none
  | some providerInfo =>
    if ¬ isSubscriptionLike fullText then .ok none
    else
      match (extractAmount fullText).amount with
      | none => .ok none
      | some amount =>
        if amount ≤ 0 then .ok none
        else
          let headers := (m.payload.map Payload.headers).getD []
          let subject := (headerValue headers "subject").getD ""
          let sentDate := sentDateOf env m
          let startDate := sentDate
          let nextBilling := jsAddDays sentDate 30
          let product := extractProduct fullText
          match dateToISO sentDate with
          | .error e => .error e
          | .ok iso =>
            .ok (some
              { provider := providerInfo.name
                tag := some providerInfo.tag
                product := product
                amount := some amount
                currency := (extractAmount fullText).currency
                startDate := some startDate
                nextBilling := some nextBilling
                rawData := some ⟨m.id, subject, m.snippet, iso⟩ })

/-- Insertion into the per-provider buckets, preserving the JavaScript
`Map`'s insertion order (a new key is appended at the end; an existing
key's list is extended at its end). -/
def bucketsInsert (bs : List (String × List ParsedSub)) (k : String) (c : ParsedSub) :
    List (String × List ParsedSub) :=
  if bs.any (fun b => b.1 == k) then
    bs.map (fun b => if b.1 == k then (b.1, b.2 ++ [c]) else b)
  else bs ++ [(k, [c])]

/-- Step 1 of the pipeline: fold the messages into the per-provider
buckets. -/
def collectBuckets (env : ScanEnv) : List EmailMsg → List (String × List ParsedSub) →
    Except String (List (String × List ParsedSub))
  | [], bs => .ok bs
  | m :: ms, bs =>
    match messageCandidate env m with
    | .error e => .error e
    | .ok none => collectBuckets env ms bs
    | .ok (some c) => collectBuckets env ms (bucketsInsert bs c.provider c)

/-- `calculateSubscriptionScore` (lines 292–329).  The result is `none`
when the JavaScript score is `NaN`, which happens exactly when the
candidate's `startDate` holds an `Invalid Date` (a truthy value whose
`getTime()` is `NaN`). -/
def calculateSubscriptionScore (now : Int) (sub : ParsedSub) : Option Int :=
  let s0 : Int := 0
  let s1 : Int :=
    match sub.amount with
    | some a =>
      if a > 0 then
        if 5 ≤ a ∧ a ≤ 10000 then s0 + 20 + 30
        else if a < 5 then s0 + 20 - 10
        else s0 + 20
      else s0 - 20
    | none => s0 - 20
  let s2 : Int :=
    match sub.product with
    | some p => if p ≠ "" ∧ p ≠ "unknown" then s1 + 5 else s1
    | none => s1
  let s3 : Int :=
    match sub.currency with
    | some c => if c ≠ "" then s2 + 5 else s2
    | none => s2
  match sub.startDate with
  | some (.valid t) =>
    let daysSinceStart := Int.fdiv (now - t) msPerDay
    some (s3 + intMax 0 (10 - Int.fdiv daysSinceStart 3))
  | some .invalid => none
  | none => some s3

/-- Strict "scores higher" comparison; comparisons against a `NaN`
score are ties (`SortCompare` maps a `NaN` comparator result to `+0`). -/
def scoresHigher (now : Int) (a b : ParsedSub) : Bool :=
  match calculateSubscriptionScore now a, calculateSubscriptionScore now b with
  | some x, some y => x > y
  | _, _ => false

/-- Stable insertion of `x` (an earlier input) into the already sorted
later elements: `x` stays in front of every element it does not score
strictly below. -/
def insertByScore (now : Int) (x : ParsedSub) : List ParsedSub → List ParsedSub
  | [] => [x]
  | y :: ys => if scoresHigher now y x then y :: insertByScore now x ys else x :: y :: ys

/-- The stable descending sort of
`scored.sort((a, b) => b.score - a.score)`. -/
def sortByScoreDesc (now : Int) : List ParsedSub → List ParsedSub
  | [] => []
  | x :: xs => insertByScore now x (sortByScoreDesc now xs)

/-- Step 2 of the pipeline for one provider bucket: a single candidate
is kept as is, otherwise the bucket is scored, sorted descending and
its top element kept. -/
def pickBest (now : Int) : List ParsedSub → Option ParsedSub
  | [] => none
  | [s] => some s
  | l => (sortByScoreDesc now l).head?

/-- Step 2 of the pipeline over all buckets, in insertion order. -/
def selectFinal (now : Int) (bs : List (String × List ParsedSub)) : List ParsedSub :=
  bs.filterMap (fun b => pickBest now b.2)

/-- `parseSubscriptionsFromEmails` (lines 154–289). -/
def parseSubscriptionsFromEmails (env : ScanEnv) (msgs : List EmailMsg) :
    Except String (List ParsedSub) :=
  match collectBuckets env msgs [] with
  | .error e => .error e
  | .ok bs => .ok (selectFinal env.now bs)

/-! ## Spec-side helper notions used by the claims -/

/-- The flat list of qualifying candidates, in batch order (the claims
about output order and per-message gating are stated against it). -/
def flatCandidates (env : ScanEnv) : List EmailMsg → Except String (List ParsedSub)
  | [] => .ok []
  | m :: ms =>
    match messageCandidate env m with
    | .error e => .error e
    | .ok none => flatCandidates env ms
    | .ok (some c) =>
      match flatCandidates env ms with
      | .error e => .error e
      | .ok cs => .ok (c :: cs)

/-- First-seen-order deduplication of a list of provider names. -/
def dedupFirst (l : List String) : List String :=
  l.foldl (fun acc k => if acc.contains k then acc else acc ++ [k]) []

/-- The three gates of the per-message loop, as the code computes them:
a provider is found, a relevance keyword occurs, and the extracted
amount is present and strictly positive. -/
def passesGates (env : ScanEnv) (m : EmailMsg) : Bool :=
  (findProvider env.catalog m.payload (fullTextOf m)).isSome &&
  isSubscriptionLike (fullTextOf m) &&
  (match (extractAmount (fullTextOf m)).amount with
   | some a => decide (0 < a)
   | none => false)

/-! ## Persistence merge (`scanUserGmailForSubscriptions`, upsert loop)

The embedding covers the merge step of
`src/services/gmailServices.ts` (lines 100–157): the loop that
reconciles each pipeline candidate against the user's stored
subscriptions.  The store is modelled as an in-memory row list. -/

/-- A persisted `Subscription` row.  The `status` attribute is modelled
from the spec: the schema file is not part of the corpus, and per the
spec (§3, §4.9) a newly created row carries the default status
`"active"` (the scheduler code queries exactly this value). -/
structure Subscription where
  id : Nat
  userId : String
  provider : String
  product : Option String
  amount : Option ℚ
  currency : Option String
  startDate : Option JSDate
  nextBilling : Option JSDate
  tag : Option String
  rawData : Option RawData
  status : String
deriving Repr, DecidableEq

/-- The persistence store: the subscription table and the next fresh
row id. -/
structure Store where
  rows : List Subscription
  nextId : Nat
deriving Repr, DecidableEq

/-- JavaScript `a || b` on optional strings
(`p.product || existing.product`). -/
def jsOrStr (a b : Option String) : Option String :=
  if truthyStr a then a else b

/-- The tag lookup of the merge loop:
`subs.find(s => s.name.toLowerCase() === p.provider.toLowerCase())?.tag || "other"`. -/
def tagFor (catalog : List CatalogEntry) (provider : String) : String :=
  match catalog.find? (fun s => jsToLower s.name == jsToLower provider) with
  | some e => if e.tag = "" then "other" else e.tag
  | none => "other"

/-- `prisma.subscription.findFirst({ where: { userId, provider } })`:
provider-only matching (the product is ignored). -/
def findExisting (st : Store) (userId provider : String) : Option Subscription :=
  st.rows.find? (fun s => s.userId == userId && s.provider == provider)

/-- The merge of one candidate (the `if (existing) … else …` body):
update in place with a full replace of the volatile fields (`product`
only when the candidate provides one), or create a new row with the
default status `"active"`.  Returns the new store and the saved row. -/
def persistOne (catalog : List CatalogEntry) (userId : String) (st : Store)
    (p : ParsedSub) : Store × Subscription :=
  let tag := tagFor catalog p.provider
  match findExisting st userId p.provider with
  | some existing =>
    let updated : Subscription :=
      { existing with
          amount := p.amount
          currency := p.currency
          product := jsOrStr p.product existing.product
          startDate := p.startDate
          nextBilling := p.nextBilling
          tag := some tag
          rawData := p.rawData }
    (⟨st.rows.map (fun s => if s.id == existing.id then updated else s), st.nextId⟩, updated)
  | none =>
    let created : Subscription :=
      { id := st.nextId
        userId := userId
        provider := p.provider
        product := p.product
        amount := p.amount
        currency := p.currency
        startDate := p.startDate
        nextBilling := p.nextBilling
        tag := some tag
        rawData := p.rawData
        status := "active" }
    (⟨st.rows ++ [created], st.nextId + 1⟩, created)

/-- The merge loop over a batch of candidates (no store failures):
each candidate is looked up and upserted in order. -/
def persistParsed (catalog : List CatalogEntry) (userId : String) :
    List ParsedSub → Store → Store × List Subscription
  | [], st => (st, [])
  | p :: ps, st =>
    let r := persistOne catalog userId st p
    let rest := persistParsed catalog userId ps r.1
    (rest.1, r.2 :: rest.2)

/-- The merge loop with store failures: `fail p` models the store
throwing on the candidate `p`'s persistence call (store unavailable or
constraint violation).  The loop body has no exception handler, so the
rejection propagates: the `Except.error` carries the store state at
the moment of the failure. -/
def persistParsedE (fail : ParsedSub → Bool) (catalog : List CatalogEntry)
    (userId : String) : List ParsedSub → Store → Except Store (Store × List Subscription)
  | [], st => .ok (st, [])
  | p :: ps, st =>
    if fail p then .error st
    else
      let r := persistOne catalog userId st p
      match persistParsedE fail catalog userId ps r.1 with
      | .error st' => .error st'
      | .ok v => .ok (v.1, r.2 :: v.2)

/-! ## Fixtures used by the concrete claims -/

/-- A catalog containing the `netflix` provider. -/
def netflixCatalog : List CatalogEntry := [⟨"Netflix", "streaming"⟩]

/-- The claim scenario's message: the Netflix snippet with no payload. -/
def snippetOnlyMsg : EmailMsg :=
  ⟨"1", some "Your Netflix subscription was charged $15.99 on 2024-03-01", none⟩

/-- The same message delivered with a payload (as the Gmail fetch of the
repository always does; here one with no headers, no body and no
parts, so the snippet is the full text). -/
def payloadMsg : EmailMsg :=
  ⟨"1", some "Your Netflix subscription was charged $15.99 on 2024-03-01",
   some (.mk [] none none none)⟩

/-- A concrete environment for the scenario claims. -/
def netflixEnv : ScanEnv := ⟨netflixCatalog, 0, fun _ => none⟩

/-! ## C1 -/

/-- C1 counterexample: on the claim's exact input — the Netflix snippet
message with no payload — the pipeline returns the empty list, not one
Netflix record: `findProvider` bails out on the missing payload before
ever looking at the snippet. -/
theorem C1_counterexample :
    parseSubscriptionsFromEmails netflixEnv [snippetOnlyMsg] = .ok [] := rfl

/-- C1 (amended): the scenario holds once the message carries a payload
(its headers may be empty): with `Netflix` in the catalog the pipeline
returns exactly one record with provider `"Netflix"`, amount 15.99
(= 1599/100), currency `"USD"`, `startDate` the current-time fallback
and `nextBilling` exactly 30 days later.  The catalog tag, the clock
and the date parser are arbitrary. -/
theorem C1_amended_scenario (t : String) (now : Int) (pd : String → Option Int) :
    ∃ c, parseSubscriptionsFromEmails ⟨[⟨"Netflix", t⟩], now, pd⟩ [payloadMsg] = .ok [c] ∧
      c.provider = "Netflix" ∧ c.amount = some (mkRat 1599 100) ∧
      c.currency = some "USD" ∧ c.startDate = some (.valid now) ∧
      c.nextBilling = some (.valid (now + 30 * msPerDay)) :=
  ⟨{ provider := "Netflix", tag := some t, product := some "was charged",
     amount := some (mkRat 1599 100), currency := some "USD",
     startDate := some (.valid now), nextBilling := some (.valid (now + 30 * msPerDay)),
     rawData := some ⟨"1", "",
       some "Your Netflix subscription was charged $15.99 on 2024-03-01", now⟩ },
   rfl, rfl, rfl, rfl, rfl, rfl⟩

/-! ## C5 -/

/-- The HTML message of the C5 scenario: its `body.data` is the base64
encoding of `<html><b>$6,600</b> charged</html>`. -/
def htmlMsg : Payload :=
  .mk [] (some "text/html") (some "PGh0bWw+PGI+JDYsNjAwPC9iPiBjaGFyZ2VkPC9odG1sPg==") none

/-- C5: thousands separators are stripped before numeric parsing — the
captured value `6,600` parses to 6600 (not 6.6 or 600), and the HTML
body containing `<b>$6,600</b> charged` decodes to plain text from
which amount 6600 is extracted. -/
theorem C5_thousands_separator :
    parseDecimalQ (stripCommas "6,600".data) = mkRat 6600 1 ∧
    extractAmount "$6,600" = ⟨some (mkRat 6600 1), some "USD"⟩ ∧
    decodeEmailBody (some htmlMsg) = "$6,600 charged" ∧
    extractAmount (decodeEmailBody (some htmlMsg)) = ⟨some (mkRat 6600 1), some "USD"⟩ :=
  ⟨rfl, rfl, rfl, rfl⟩

/-! ## C7 -/

/-- A message passing all three gates whose `Date` header is present but
unparseable. -/
def badDateMsg : EmailMsg :=
  ⟨"2", some "netflix subscription charged $15.99",
   some (.mk [⟨"Date", some "not a date"⟩] none none none)⟩

/-- C7 (code bug evaluation): a message that passes all three gates but
carries an unparseable `Date` header does not fall back to the scan
time — `new Date("not a date")` is an `Invalid Date`, and
`sentDate.toISOString()` in the `rawData` construction throws, aborting
the whole pipeline call.  The environment's date parser rejects the
header value, as every JavaScript engine does for this string. -/
theorem C7_unparseable_date_throws :
    passesGates netflixEnv badDateMsg = true ∧
    parseSubscriptionsFromEmails netflixEnv [badDateMsg] =
      .error "RangeError: Invalid time value" :=
  ⟨rfl, rfl⟩

/-! ## C10 -/

/-- C10: a message without a payload is excluded outright —
`findProvider` returns none, the message contributes no candidate, and
a batch of it alone yields the empty output — whatever the snippet
says. -/
theorem C10_no_payload_excluded (env : ScanEnv) (m : EmailMsg) (h : m.payload = none) :
    findProvider env.catalog m.payload (fullTextOf m) = none ∧
    messageCandidate env m = .ok none ∧
    parseSubscriptionsFromEmails env [m] = .ok [] := by
  obtain ⟨id, sn, pl⟩ := m
  cases pl with
  | none => exact ⟨rfl, rfl, rfl⟩
  | some p => exact Option.noConfusion h

/-- C10 witness: the exclusion at a concrete snippet that contains a
catalog provider, a relevance keyword and a currency-adjacent amount. -/
theorem C10_no_payload_excluded_witness :
    snippetOnlyMsg.payload = none ∧
    jsIncludes (fullTextOf snippetOnlyMsg) "netflix" = true ∧
    isSubscriptionLike (fullTextOf snippetOnlyMsg) = true ∧
    (extractAmount (fullTextOf snippetOnlyMsg)).amount = some (mkRat 1599 100) ∧
    parseSubscriptionsFromEmails netflixEnv [snippetOnlyMsg] = .ok [] :=
  ⟨rfl, rfl, rfl, rfl, (C10_no_payload_excluded netflixEnv snippetOnlyMsg rfl).2.2⟩

/-! ## C8 -/

/-- C8: the persistence merge of one pipeline candidate.  The lookup key
is `(userId, provider)` only; a hit is updated with a full replace of
amount, currency, startDate, nextBilling, tag and rawData (the product
only when the candidate provides a truthy one); a miss creates a fresh
row with status `"active"` (the schema default, modelled from the
spec). -/
theorem C8_merge_policy (catalog : List CatalogEntry) (userId : String)
    (st : Store) (p : ParsedSub) :
    (∀ e, findExisting st userId p.provider = some e →
      ∃ u, persistOne catalog userId st p =
          (⟨st.rows.map (fun s => if s.id == e.id then u else s), st.nextId⟩, u) ∧
        u.amount = p.amount ∧ u.currency = p.currency ∧ u.startDate = p.startDate ∧
        u.nextBilling = p.nextBilling ∧ u.tag = some (tagFor catalog p.provider) ∧
        u.rawData = p.rawData ∧
        (truthyStr p.product = true → u.product = p.product) ∧
        (truthyStr p.product = false → u.product = e.product) ∧
        u.id = e.id ∧ u.userId = e.userId ∧ u.provider = e.provider ∧ u.status = e.status) ∧
    (findExisting st userId p.provider = none →
      ∃ n, persistOne catalog userId st p = (⟨st.rows ++ [n], st.nextId + 1⟩, n) ∧
        n.status = "active" ∧ n.userId = userId ∧ n.provider = p.provider ∧
        n.product = p.product ∧ n.amount = p.amount ∧ n.currency = p.currency ∧
        n.startDate = p.startDate ∧ n.nextBilling = p.nextBilling ∧
        n.tag = some (tagFor catalog p.provider) ∧ n.rawData = p.rawData) := by
  constructor
  · intro e he
    refine ⟨{ e with
        amount := p.amount
        currency := p.currency
        product := jsOrStr p.product e.product
        startDate := p.startDate
        nextBilling := p.nextBilling
        tag := some (tagFor catalog p.provider)
        rawData := p.rawData }, ?_, rfl, rfl, rfl, rfl, rfl, rfl, ?_, ?_, rfl, rfl, rfl, rfl⟩
    · unfold persistOne
      rw [he]
    · intro ht
      show jsOrStr p.product e.product = p.product
      unfold jsOrStr
      rw [ht]
      rfl
    · intro ht
      show jsOrStr p.product e.product = e.product
      unfold jsOrStr
      rw [ht]
      rfl
  · intro he
    refine ⟨{ id := st.nextId
              userId := userId
              provider := p.provider
              product := p.product
              amount := p.amount
              currency := p.currency
              startDate := p.startDate
              nextBilling := p.nextBilling
              tag := some (tagFor catalog p.provider)
              rawData := p.rawData
              status := "active" }, ?_, rfl, rfl, rfl, rfl, rfl, rfl, rfl, rfl, rfl, rfl⟩
    unfold persistOne
    rw [he]

/-- The stored Netflix subscription of the C8 scenario (amount 15.99). -/
def storedNetflix : Subscription :=
  ⟨0, "u1", "Netflix", none, some (mkRat 1599 100), some "USD", none, none,
   some "streaming", none, "active"⟩

/-- The rescanned Netflix candidate of the C8 scenario (amount 17.99). -/
def rescanCand : ParsedSub :=
  { provider := "Netflix", amount := some (mkRat 1799 100), currency := some "USD" }

/-- C8 witness: the scenario — the existing Netflix row at 15.99,
rescanned with amount 17.99, is updated in place to 17.99 (no
coalescing, no averaging, no second row). -/
theorem C8_merge_policy_witness :
    findExisting ⟨[storedNetflix], 1⟩ "u1" rescanCand.provider = some storedNetflix ∧
    (∃ u, persistOne netflixCatalog "u1" ⟨[storedNetflix], 1⟩ rescanCand =
        (⟨[storedNetflix].map (fun s => if s.id == storedNetflix.id then u else s), 1⟩, u) ∧
      u.amount = rescanCand.amount ∧ u.currency = rescanCand.currency ∧
      u.startDate = rescanCand.startDate ∧ u.nextBilling = rescanCand.nextBilling ∧
      u.tag = some (tagFor netflixCatalog rescanCand.provider) ∧
      u.rawData = rescanCand.rawData ∧
      (truthyStr rescanCand.product = true → u.product = rescanCand.product) ∧
      (truthyStr rescanCand.product = false → u.product = storedNetflix.product) ∧
      u.id = storedNetflix.id ∧ u.userId = storedNetflix.userId ∧
      u.provider = storedNetflix.provider ∧ u.status = storedNetflix.status) ∧
    (persistParsed netflixCatalog "u1" [rescanCand] ⟨[storedNetflix], 1⟩).1.rows =
      [{ storedNetflix with amount := some (mkRat 1799 100) }] :=
  ⟨rfl,
   (C8_merge_policy netflixCatalog "u1" ⟨[storedNetflix], 1⟩ rescanCand).1 storedNetflix rfl,
   rfl⟩

/-! ## C9 -/

/-- A second candidate for a different provider. -/
def spotifyCand : ParsedSub :=
  { provider := "Spotify", amount := some (mkRat 999 100), currency := some "USD" }

/-- A store-failure model that rejects exactly Netflix persistence
calls. -/
def failNetflix (p : ParsedSub) : Bool :=
  p.provider == "Netflix"

/-- C9 counterexample: a persistence failure on the first candidate
aborts the whole merge — although the Spotify candidate's own persist
would have succeeded, the loop rejects with the store untouched, so the
Spotify candidate was never attempted. -/
theorem C9_counterexample :
    failNetflix spotifyCand = false ∧
    persistParsedE failNetflix netflixCatalog "u1" [rescanCand, spotifyCand] ⟨[], 0⟩ =
      .error ⟨[], 0⟩ :=
  ⟨rfl, rfl⟩

/-- C9 (amended): a store failure on one candidate propagates out of
the merge loop (there is no per-candidate isolation): with the failing
candidate `p` anywhere in the batch, the loop errors out carrying
exactly the store produced by the candidates before `p`; the
candidates after `p` are never attempted, while the earlier writes
remain. -/
theorem C9_amended_abort (fail : ParsedSub → Bool) (catalog : List CatalogEntry)
    (userId : String) (pre post : List ParsedSub) (p : ParsedSub) (st : Store)
    (hpre : ∀ q ∈ pre, fail q = false) (hp : fail p = true) :
    persistParsedE fail catalog userId (pre ++ p :: post) st =
      .error (persistParsed catalog userId pre st).1 := by
  induction pre generalizing st with
  | nil =>
    show persistParsedE fail catalog userId (p :: post) st = _
    unfold persistParsedE
    rw [hp]
    rfl
  | cons q pre ih =>
    have hq : fail q = false := hpre q (List.mem_cons_self q pre)
    show persistParsedE fail catalog userId (q :: (pre ++ p :: post)) st = _
    unfold persistParsedE
    simp only [hq]
    rw [ih _ (fun r hr => hpre r (List.mem_cons_of_mem q hr))]
    rfl

/-- C9 witness: with the Spotify candidate first and the failing Netflix
candidate second, the merge aborts after persisting Spotify: the error
carries the one-row Spotify store, and no Netflix row exists. -/
theorem C9_amended_abort_witness :
    persistParsedE failNetflix netflixCatalog "u1" [spotifyCand, rescanCand] ⟨[], 0⟩ =
      .error (persistParsed netflixCatalog "u1" [spotifyCand] ⟨[], 0⟩).1 ∧
    (persistParsed netflixCatalog "u1" [spotifyCand] ⟨[], 0⟩).1.rows.map
      (fun s => s.provider) = ["Spotify"] :=
  ⟨C9_amended_abort failNetflix netflixCatalog "u1" [spotifyCand] [] rescanCand ⟨[], 0⟩
      (by intro q hq; cases hq with
          | head => rfl
          | tail _ h => cases h)
      rfl,
   rfl⟩

/-! ## C3 -/

/-- Helper: members of the `knownProviders` lookup come from catalog
entries (display name and tag preserved). -/
theorem knownProviders_from_catalog (catalog : List CatalogEntry) (kp : KnownProvider)
    (h : kp ∈ knownProviders catalog) :
    ∃ e ∈ catalog, kp.originalName = e.name ∧ kp.tag = e.tag := by
  unfold knownProviders at h
  obtain ⟨e, he, hfe⟩ := List.mem_map.mp h
  exact ⟨e, he, by rw [← hfe], by rw [← hfe]⟩

/-- Helper: the unfolding of `findProvider` on a present payload. -/
theorem findProvider_some_eq (catalog : List CatalogEntry) (p : Payload) (ft : String) :
    findProvider catalog (some p) ft =
      match (knownProviders catalog).find?
          (fun kp => jsIncludes (jsToLower ((headerValue p.headers "from").getD "")) kp.name) with
      | some kp => some ⟨kp.originalName, kp.tag⟩
      | none =>
        match (knownProviders catalog).find? (fun kp => jsIncludes ft kp.name) with
        | some kp => some ⟨kp.originalName, kp.tag⟩
        | none => none := rfl

/-- Helper: a provider hit always carries a catalog entry's display
name and tag. -/
theorem findProvider_from_catalog (catalog : List CatalogEntry) (payload : Option Payload)
    (ft : String) (hit : ProviderHit)
    (h : findProvider catalog payload ft = some hit) :
    ∃ e ∈ catalog, hit.name = e.name ∧ hit.tag = e.tag := by
  cases payload with
  | none => exact absurd h (by simp [findProvider])
  | some p =>
    rw [findProvider_some_eq] at h
    cases h1 : (knownProviders catalog).find?
        (fun kp => jsIncludes (jsToLower ((headerValue p.headers "from").getD "")) kp.name) with
    | some kp =>
      rw [h1] at h
      obtain ⟨e, he, hn, ht⟩ :=
        knownProviders_from_catalog catalog kp (List.mem_of_find?_eq_some h1)
      cases h
      exact ⟨e, he, hn, ht⟩
    | none =>
      rw [h1] at h
      cases h2 : (knownProviders catalog).find? (fun kp => jsIncludes ft kp.name) with
      | some kp =>
        rw [h2] at h
        obtain ⟨e, he, hn, ht⟩ :=
          knownProviders_from_catalog catalog kp (List.mem_of_find?_eq_some h2)
        cases h
        exact ⟨e, he, hn, ht⟩
      | none =>
        rw [h2] at h
        exact absurd h (by simp)

/-- C3: a message contributes a candidate only if all three gates pass
(provider found by `findProvider`, a relevance keyword in the text, a
present and strictly positive amount); a message failing any gate is
silently excluded (`.ok none`, no error); and an emitted candidate's
provider is always a catalog display name — in particular the literal
`"unknown"` placeholder is never fabricated. -/
theorem C3_gating (env : ScanEnv) (m : EmailMsg) :
    (∀ c, messageCandidate env m = .ok (some c) →
      passesGates env m = true ∧
      (∃ e ∈ env.catalog, c.provider = e.name) ∧
      ((∀ e ∈ env.catalog, e.name ≠ "unknown") → c.provider ≠ "unknown")) ∧
    (passesGates env m = false → messageCandidate env m = .ok none) := by
  have hmc : messageCandidate env m =
      match findProvider env.catalog m.payload (fullTextOf m) with
      | none => .ok none
      | some providerInfo =>
        if ¬ isSubscriptionLike (fullTextOf m) then .ok none
        else
          match (extractAmount (fullTextOf m)).amount with
          | none => .ok none
          | some amount =>
            if amount ≤ 0 then .ok none
            else
              match dateToISO (sentDateOf env m) with
              | .error e => .error e
              | .ok iso =>
                .ok (some
                  { provider := providerInfo.name
                    tag := some providerInfo.tag
                    product := extractProduct (fullTextOf m)
                    amount := some amount
                    currency := (extractAmount (fullTextOf m)).currency
                    startDate := some (sentDateOf env m)
                    nextBilling := some (jsAddDays (sentDateOf env m) 30)
                    rawData := some ⟨m.id,
                      (headerValue ((m.payload.map Payload.headers).getD []) "subject").getD "",
                      m.snippet, iso⟩ }) := rfl
  have hpg : passesGates env m =
      ((findProvider env.catalog m.payload (fullTextOf m)).isSome &&
        (isSubscriptionLike (fullTextOf m) &&
          (match (extractAmount (fullTextOf m)).amount with
           | some a => decide (0 < a)
           | none => false))) := by
    unfold passesGates
    rw [Bool.and_assoc]
  cases hfp : findProvider env.catalog m.payload (fullTextOf m) with
  | none =>
    rw [hfp] at hmc
    constructor
    · intro c hc
      rw [hmc] at hc
      exact absurd hc (by simp)
    · intro _
      exact hmc
  | some pi =>
    rw [hfp] at hmc hpg
    dsimp only at hmc hpg
    cases hsl : isSubscriptionLike (fullTextOf m) with
    | false =>
      rw [hsl] at hmc hpg
      rw [if_pos (by simp)] at hmc
      constructor
      · intro c hc
        rw [hmc] at hc
        exact absurd hc (by simp)
      · intro _
        exact hmc
    | true =>
      rw [hsl] at hmc hpg
      rw [if_neg (by simp)] at hmc
      cases ham : (extractAmount (fullTextOf m)).amount with
      | none =>
        rw [ham] at hmc hpg
        constructor
        · intro c hc
          rw [hmc] at hc
          exact absurd hc (by simp)
        · intro _
          exact hmc
      | some a =>
        rw [ham] at hmc hpg
        dsimp only at hmc hpg
        by_cases hle : a ≤ 0
        · rw [if_pos hle] at hmc
          constructor
          · intro c hc
            rw [hmc] at hc
            exact absurd hc (by simp)
          · intro _
            exact hmc
        · rw [if_neg hle] at hmc
          have hpos : (0 : ℚ) < a := lt_of_not_le hle
          have hgt : passesGates env m = true := by
            rw [hpg]
            simp [hpos]
          constructor
          · intro c hc
            rw [hmc] at hc
            cases hiso : dateToISO (sentDateOf env m) with
            | error e =>
              rw [hiso] at hc
              exact absurd hc (by simp)
            | ok iso =>
              rw [hiso] at hc
              have hc' := Except.ok.inj hc
              have hcs := Option.some.inj hc'
              obtain ⟨e, he, hn, _⟩ := findProvider_from_catalog _ _ _ _ hfp
              have hprov : c.provider = pi.name := by rw [← hcs]
              refine ⟨hgt, ⟨e, he, by rw [hprov, hn]⟩, ?_⟩
              intro hnone
              rw [hprov, hn]
              exact hnone e he
          · intro hfalse
            rw [hgt] at hfalse
            exact absurd hfalse (by simp)

/-- A message with a provider and an amount but no relevance keyword. -/
def noKeywordMsg : EmailMsg :=
  ⟨"3", some "netflix gift card $20", some (.mk [] none none none)⟩

/-- The candidate the pipeline builds for `payloadMsg` under
`netflixEnv`. -/
def payloadMsgCandidate : ParsedSub where
  provider := "Netflix"
  tag := some "streaming"
  product := some "was charged"
  amount := some (mkRat 1599 100)
  currency := some "USD"
  startDate := some (.valid 0)
  nextBilling := some (.valid (0 + 30 * msPerDay))
  rawData := some ⟨"1", "",
    some "Your Netflix subscription was charged $15.99 on 2024-03-01", 0⟩

/-- C3 witness: the qualifying Netflix message passes the gates and its
candidate's provider is a catalog name; the keyword-less message is
silently excluded. -/
theorem C3_gating_witness :
    (passesGates netflixEnv payloadMsg = true ∧
      (∃ e ∈ netflixEnv.catalog, payloadMsgCandidate.provider = e.name) ∧
      ((∀ e ∈ netflixEnv.catalog, e.name ≠ "unknown") →
        payloadMsgCandidate.provider ≠ "unknown")) ∧
    passesGates netflixEnv noKeywordMsg = false ∧
    messageCandidate netflixEnv noKeywordMsg = .ok none :=
  ⟨(C3_gating netflixEnv payloadMsg).1 payloadMsgCandidate rfl, rfl,
   (C3_gating netflixEnv noKeywordMsg).2 rfl⟩

/-! ## C6 -/

/-- The (defined) score of a candidate, under the assumption that its
score is not `NaN`. -/
def scoreD (now : Int) (s : ParsedSub) : Int :=
  (calculateSubscriptionScore now s).getD 0

/-- Helper: on candidates with defined scores, `scoresHigher` is the
strict comparison of the scores. -/
theorem scoresHigher_iff (now : Int) (a b : ParsedSub)
    (ha : (calculateSubscriptionScore now a).isSome = true)
    (hb : (calculateSubscriptionScore now b).isSome = true) :
    scoresHigher now a b = true ↔ scoreD now b < scoreD now a := by
  unfold scoresHigher scoreD
  cases hA : calculateSubscriptionScore now a with
  | none => rw [hA] at ha; exact absurd ha (by simp)
  | some x =>
    cases hB : calculateSubscriptionScore now b with
    | none => rw [hB] at hb; exact absurd hb (by simp)
    | some y => simp

/-- Helper: the cons equation of `insertByScore`. -/
theorem insertByScore_cons (now : Int) (x y : ParsedSub) (ys : List ParsedSub) :
    insertByScore now x (y :: ys) =
      if scoresHigher now y x then y :: insertByScore now x ys else x :: y :: ys := rfl

/-- Helper: the head of the stable descending sort of a nonempty list of
candidates with defined scores is the first input element attaining the
maximal score. -/
theorem sortByScoreDesc_head (now : Int) : ∀ l : List ParsedSub,
    l ≠ [] → (∀ s ∈ l, (calculateSubscriptionScore now s).isSome = true) →
    ∃ b rest pre post, sortByScoreDesc now l = b :: rest ∧ l = pre ++ b :: post ∧
      (∀ c ∈ pre, scoreD now c < scoreD now b) ∧
      (∀ c ∈ l, scoreD now c ≤ scoreD now b) := by
  intro l
  induction l with
  | nil => intro h; exact absurd rfl h
  | cons x xs ih =>
    intro _ hs
    cases xs with
    | nil =>
      refine ⟨x, [], [], [], rfl, rfl, by simp, ?_⟩
      intro c hc
      rw [List.mem_singleton.mp hc]
    | cons y ys =>
      have hxs : ∀ s ∈ y :: ys, (calculateSubscriptionScore now s).isSome = true :=
        fun s hsx => hs s (List.mem_cons_of_mem x hsx)
      obtain ⟨b, rest, pre, post, hsort, hdecomp, hpre, hall⟩ := ih (by simp) hxs
      have hbmem : b ∈ y :: ys := by
        rw [hdecomp]
        exact List.mem_append_right pre (List.mem_cons_self b post)
      have hbs : (calculateSubscriptionScore now b).isSome = true := hxs b hbmem
      have hxsome : (calculateSubscriptionScore now x).isSome = true :=
        hs x (List.mem_cons_self x (y :: ys))
      have hstep : sortByScoreDesc now (x :: y :: ys) =
          insertByScore now x (sortByScoreDesc now (y :: ys)) := rfl
      by_cases hcmp : scoresHigher now b x = true
      · have hx : scoreD now x < scoreD now b := (scoresHigher_iff now b x hbs hxsome).mp hcmp
        refine ⟨b, insertByScore now x rest, x :: pre, post, ?_, ?_, ?_, ?_⟩
        · rw [hstep, hsort, insertByScore_cons, if_pos hcmp]
        · show x :: (y :: ys) = (x :: pre) ++ b :: post
          rw [List.cons_append, hdecomp]
        · intro c hc
          cases List.mem_cons.mp hc with
          | inl h => rw [h]; exact hx
          | inr h => exact hpre c h
        · intro c hc
          cases List.mem_cons.mp hc with
          | inl h => rw [h]; exact le_of_lt hx
          | inr h => exact hall c h
      · have hbx : scoreD now b ≤ scoreD now x := by
          by_contra hlt
          exact hcmp ((scoresHigher_iff now b x hbs hxsome).mpr (lt_of_not_le hlt))
        refine ⟨x, b :: rest, [], y :: ys, ?_, rfl, by simp, ?_⟩
        · rw [hstep, hsort, insertByScore_cons, if_neg hcmp]
        · intro c hc
          cases List.mem_cons.mp hc with
          | inl h => rw [h]
          | inr h => exact le_trans (hall c h) hbx

/-- C6: for a provider bucket of two or more candidates whose scores
are defined (no `NaN`), the selector returns a candidate of the bucket
with the maximal score under `calculateSubscriptionScore`, and among
equal scores the earliest input candidate wins (stable sort,
first-seen): every candidate strictly before the winner scores
strictly below it. -/
theorem C6_selector_max (now : Int) (l : List ParsedSub)
    (hlen : 2 ≤ l.length)
    (hs : ∀ s ∈ l, (calculateSubscriptionScore now s).isSome = true) :
    ∃ b pre post, pickBest now l = some b ∧ l = pre ++ b :: post ∧
      (∀ c ∈ pre, scoreD now c < scoreD now b) ∧
      (∀ c ∈ l, scoreD now c ≤ scoreD now b) := by
  cases l with
  | nil => exact absurd hlen (by simp)
  | cons x xs =>
    cases xs with
    | nil => exact absurd hlen (by simp)
    | cons y ys =>
      obtain ⟨b, rest, pre, post, hsort, hdecomp, hpre, hall⟩ :=
        sortByScoreDesc_head now (x :: y :: ys) (by simp) hs
      refine ⟨b, pre, post, ?_, hdecomp, hpre, hall⟩
      show (sortByScoreDesc now (x :: y :: ys)).head? = some b
      rw [hsort]
      rfl

/-- The low-amount candidate of the C6 scenario (otherwise equal to the
high one): amount 4.50. -/
def lowAmountCand : ParsedSub :=
  { provider := "X", amount := some (mkRat 45 10), currency := some "USD",
    startDate := some (.valid 0) }

/-- The high-amount candidate of the C6 scenario: amount 49.99. -/
def highAmountCand : ParsedSub :=
  { provider := "X", amount := some (mkRat 4999 100), currency := some "USD",
    startDate := some (.valid 0) }

/-- C6 witness: on the concrete bucket of two otherwise-equal
candidates with amounts 4.50 and 49.99, the selector picks the 49.99
candidate (scores 25 and 65: the amount-plausibility bonus dominates). -/
theorem C6_selector_max_witness :
    (∃ b pre post, pickBest 0 [lowAmountCand, highAmountCand] = some b ∧
      [lowAmountCand, highAmountCand] = pre ++ b :: post ∧
      (∀ c ∈ pre, scoreD 0 c < scoreD 0 b) ∧
      (∀ c ∈ [lowAmountCand, highAmountCand], scoreD 0 c ≤ scoreD 0 b)) ∧
    pickBest 0 [lowAmountCand, highAmountCand] = some highAmountCand ∧
    calculateSubscriptionScore 0 lowAmountCand = some 25 ∧
    calculateSubscriptionScore 0 highAmountCand = some 65 :=
  ⟨C6_selector_max 0 [lowAmountCand, highAmountCand] (by decide) (by decide),
   rfl, rfl, rfl⟩

/-! ## C4 -/

/-- Helper: a marker match decomposes its input and matches the marker
case-insensitively. -/
theorem matchMarker_append : ∀ (m s : List Char) (pr : List Char × List Char),
    matchMarker m s = some pr →
    s = pr.1 ++ pr.2 ∧ pr.1.map Char.toLower = m.map Char.toLower := by
  intro m
  induction m with
  | nil =>
    intro s pr h
    have h2 : (([], s) : List Char × List Char) = pr := Option.some.inj h
    subst h2
    exact ⟨rfl, rfl⟩
  | cons a as ih =>
    intro s pr h
    cases s with
    | nil => exact Option.noConfusion h
    | cons b bs =>
      rw [show matchMarker (a :: as) (b :: bs) =
          (if a.toLower == b.toLower then
            (matchMarker as bs).map (fun r => (b :: r.1, r.2)) else none) from rfl] at h
      by_cases hab : (a.toLower == b.toLower) = true
      · rw [if_pos hab] at h
        cases hm : matchMarker as bs with
        | none =>
          rw [hm] at h
          exact Option.noConfusion h
        | some pr0 =>
          rw [hm] at h
          have h2 : (b :: pr0.1, pr0.2) = pr := Option.some.inj h
          subst h2
          obtain ⟨ha, hl⟩ := ih bs pr0 hm
          constructor
          · show b :: bs = (b :: pr0.1) ++ pr0.2
            rw [List.cons_append, ← ha]
          · show (b :: pr0.1).map Char.toLower = (a :: as).map Char.toLower
            rw [List.map_cons, List.map_cons, hl, eq_of_beq hab]
      · rw [if_neg hab] at h
        exact Option.noConfusion h

/-- Helper: `takeDigitsUpTo` splits its input. -/
theorem takeDigitsUpTo_append : ∀ (n : Nat) (s : List Char),
    (takeDigitsUpTo n s).1 ++ (takeDigitsUpTo n s).2 = s := by
  intro n
  induction n with
  | zero => intro s; rfl
  | succ k ih =>
    intro s
    cases s with
    | nil => rfl
    | cons c cs =>
      rw [show takeDigitsUpTo (k + 1) (c :: cs) =
          (if c.isDigit then
            ((c :: (takeDigitsUpTo k cs).1, (takeDigitsUpTo k cs).2) : List Char × List Char)
           else ([], c :: cs)) from rfl]
      by_cases hc : c.isDigit = true
      · rw [if_pos hc]
        dsimp only
        rw [List.cons_append, ih]
      · rw [if_neg hc]
        rfl

/-- Helper: a nonempty digit take starts with a digit character. -/
theorem takeDigitsUpTo_first : ∀ (n : Nat) (s : List Char) (d : Char) (ds : List Char),
    (takeDigitsUpTo n s).1 = d :: ds → d.isDigit = true := by
  intro n
  cases n with
  | zero => intro s d ds h; exact absurd h (by simp [takeDigitsUpTo])
  | succ k =>
    intro s d ds h
    cases s with
    | nil => exact absurd h (by simp [takeDigitsUpTo])
    | cons c cs =>
      rw [show takeDigitsUpTo (k + 1) (c :: cs) =
          (if c.isDigit then
            ((c :: (takeDigitsUpTo k cs).1, (takeDigitsUpTo k cs).2) : List Char × List Char)
           else ([], c :: cs)) from rfl] at h
      by_cases hc : c.isDigit = true
      · rw [if_pos hc] at h
        dsimp only at h
        injection h with h1 _
        rw [← h1]
        exact hc
      · rw [if_neg hc] at h
        exact absurd h (by simp)

/-- Helper: `matchGroups` splits its input. -/
theorem matchGroups_append (s : List Char) :
    (matchGroups s).1 ++ (matchGroups s).2 = s := by
  induction s using matchGroups.induct with
  | case1 d1 d2 d3 rest h ih =>
    rw [matchGroups.eq_1, if_pos h]
    dsimp only
    rw [List.cons_append, List.cons_append, List.cons_append, List.cons_append, ih]
  | case2 d1 d2 d3 rest h =>
    rw [matchGroups.eq_1, if_neg h]
    rfl
  | case3 d1 d2 d3 rest hx h ih =>
    rw [matchGroups.eq_2 d1 d2 d3 rest hx, if_pos h]
    dsimp only
    rw [List.cons_append, List.cons_append, List.cons_append, ih]
  | case4 d1 d2 d3 rest hx h =>
    rw [matchGroups.eq_2 d1 d2 d3 rest hx, if_neg h]
    rfl
  | case5 s h1 h2 =>
    rw [matchGroups.eq_3 s h1 h2]
    exact List.nil_append s

/-- Helper: `matchFrac` splits its input. -/
theorem matchFrac_append (s : List Char) :
    (matchFrac s).1 ++ (matchFrac s).2 = s := by
  unfold matchFrac
  split <;> (try split) <;> simp

/-- Helper: a successful number match decomposes its input and the
capture starts with a digit. -/
theorem matchNumber_decomp (s : List Char) (pr : List Char × List Char)
    (h : matchNumber s = some pr) :
    s = pr.1 ++ pr.2 ∧ ∃ d ds, pr.1 = d :: ds ∧ d.isDigit = true := by
  simp only [matchNumber] at h
  by_cases hd : (takeDigitsUpTo 3 s).1.isEmpty = true
  · rw [if_pos hd] at h
    exact Option.noConfusion h
  · rw [if_neg hd] at h
    have h2 := Option.some.inj h
    subst h2
    constructor
    · dsimp only
      conv_lhs =>
        rw [← takeDigitsUpTo_append 3 s,
          ← matchGroups_append (takeDigitsUpTo 3 s).2,
          ← matchFrac_append (matchGroups (takeDigitsUpTo 3 s).2).2]
      simp [List.append_assoc]
    · dsimp only
      cases ht : (takeDigitsUpTo 3 s).1 with
      | nil =>
        rw [ht] at hd
        exact absurd rfl hd
      | cons d0 ds0 =>
        refine ⟨d0, ds0 ++ (matchGroups (takeDigitsUpTo 3 s).2).1 ++
          (matchFrac (matchGroups (takeDigitsUpTo 3 s).2).2).1, ?_,
          takeDigitsUpTo_first 3 s d0 ds0 ht⟩
        simp [ht, List.cons_append, List.append_assoc]

/-- Helper: a successful `numberAfter` keeps the marker and captures a
number separated from it by at most one whitespace character. -/
theorem numberAfter_decomp (sym rest : List Char) (pr : List Char × List Char)
    (h : numberAfter sym rest = some pr) :
    pr.1 = sym ∧ ∃ ws rest2, rest = ws ++ pr.2 ++ rest2 ∧
      (ws = [] ∨ ∃ w, ws = [w] ∧ isJsWs w = true) ∧
      ∃ d ds, pr.2 = d :: ds ∧ d.isDigit = true := by
  cases rest with
  | nil => exact Option.noConfusion h
  | cons c cs =>
    rw [show numberAfter sym (c :: cs) =
        (if isJsWs c then (matchNumber cs).map (fun n => (sym, n.1))
         else (matchNumber (c :: cs)).map (fun n => (sym, n.1))) from rfl] at h
    by_cases hw : isJsWs c = true
    · rw [if_pos hw] at h
      cases hm : matchNumber cs with
      | none =>
        rw [hm] at h
        exact Option.noConfusion h
      | some n =>
        rw [hm] at h
        have h2 : (sym, n.1) = pr := Option.some.inj h
        subst h2
        obtain ⟨hn, d, ds, hnum, hdig⟩ := matchNumber_decomp cs n hm
        refine ⟨rfl, [c], n.2, ?_, Or.inr ⟨c, rfl, hw⟩, ⟨d, ds, hnum, hdig⟩⟩
        rw [show ([c] ++ n.1 ++ n.2 : List Char) = c :: (n.1 ++ n.2) by simp, ← hn]
    · rw [if_neg hw] at h
      cases hm : matchNumber (c :: cs) with
      | none =>
        rw [hm] at h
        exact Option.noConfusion h
      | some n =>
        rw [hm] at h
        have h2 : (sym, n.1) = pr := Option.some.inj h
        subst h2
        obtain ⟨hn, d, ds, hnum, hdig⟩ := matchNumber_decomp (c :: cs) n hm
        exact ⟨rfl, [], n.2, by simpa using hn, Or.inl rfl, ⟨d, ds, hnum, hdig⟩⟩

/-- Helper: marker-then-number decomposition for one alternative. -/
theorem markerNumber_decomp (mk s : List Char) (r : List Char × List Char)
    (pr : List Char × List Char)
    (hmk : matchMarker mk s = some r) (hna : numberAfter r.1 r.2 = some pr) :
    ∃ ws rest2, s = pr.1 ++ ws ++ pr.2 ++ rest2 ∧
      (ws = [] ∨ ∃ w, ws = [w] ∧ isJsWs w = true) ∧
      pr.1.map Char.toLower = mk.map Char.toLower ∧
      ∃ d ds, pr.2 = d :: ds ∧ d.isDigit = true := by
  obtain ⟨hs, hlow⟩ := matchMarker_append mk s r hmk
  obtain ⟨hsym, ws, rest2, hrest, hws, hnum⟩ := numberAfter_decomp r.1 r.2 pr hna
  refine ⟨ws, rest2, ?_, hws, by rw [hsym, hlow], hnum⟩
  rw [hs, hrest, hsym]
  simp [List.append_assoc]

/-- Helper: decomposition of a one-position pattern match. -/
theorem matchPatternAt_decomp (m1 m2 s : List Char) (pr : List Char × List Char)
    (h : matchPatternAt m1 m2 s = some pr) :
    ∃ ws rest2, s = pr.1 ++ ws ++ pr.2 ++ rest2 ∧
      (ws = [] ∨ ∃ w, ws = [w] ∧ isJsWs w = true) ∧
      (pr.1.map Char.toLower = m1.map Char.toLower ∨
        pr.1.map Char.toLower = m2.map Char.toLower) ∧
      ∃ d ds, pr.2 = d :: ds ∧ d.isDigit = true := by
  unfold matchPatternAt at h
  cases hm1 : matchMarker m1 s with
  | some r =>
    rw [hm1] at h
    dsimp only at h
    cases hna : numberAfter r.1 r.2 with
    | some v =>
      rw [hna] at h
      have h2 : v = pr := Option.some.inj h
      subst h2
      obtain ⟨ws, rest2, hdec, hws, hlow, hnum⟩ := markerNumber_decomp m1 s r v hm1 hna
      exact ⟨ws, rest2, hdec, hws, Or.inl hlow, hnum⟩
    | none =>
      rw [hna] at h
      dsimp only at h
      cases hm2 : matchMarker m2 s with
      | some r2 =>
        rw [hm2] at h
        dsimp only at h
        obtain ⟨ws, rest2, hdec, hws, hlow, hnum⟩ := markerNumber_decomp m2 s r2 pr hm2 h
        exact ⟨ws, rest2, hdec, hws, Or.inr hlow, hnum⟩
      | none =>
        rw [hm2] at h
        exact Option.noConfusion h
  | none =>
    rw [hm1] at h
    dsimp only at h
    cases hm2 : matchMarker m2 s with
    | some r2 =>
      rw [hm2] at h
      dsimp only at h
      obtain ⟨ws, rest2, hdec, hws, hlow, hnum⟩ := markerNumber_decomp m2 s r2 pr hm2 h
      exact ⟨ws, rest2, hdec, hws, Or.inr hlow, hnum⟩
    | none =>
      rw [hm2] at h
      exact Option.noConfusion h

/-- Helper: decomposition of the leftmost scan — a successful
extraction exhibits, somewhere in the text, a currency marker followed
(after at most one whitespace) by the captured number. -/
theorem scanPattern_decomp (m1 m2 : List Char) : ∀ (s : List Char) (pr : List Char × List Char),
    scanPattern m1 m2 s = some pr →
    ∃ pre ws rest2, s = pre ++ pr.1 ++ ws ++ pr.2 ++ rest2 ∧
      (ws = [] ∨ ∃ w, ws = [w] ∧ isJsWs w = true) ∧
      (pr.1.map Char.toLower = m1.map Char.toLower ∨
        pr.1.map Char.toLower = m2.map Char.toLower) ∧
      ∃ d ds, pr.2 = d :: ds ∧ d.isDigit = true := by
  intro s
  induction s with
  | nil =>
    intro pr h
    exact Option.noConfusion h
  | cons c cs ih =>
    intro pr h
    rw [show scanPattern m1 m2 (c :: cs) =
        (match matchPatternAt m1 m2 (c :: cs) with
         | some v => some v
         | none => scanPattern m1 m2 cs) from rfl] at h
    cases hp : matchPatternAt m1 m2 (c :: cs) with
    | some v =>
      rw [hp] at h
      obtain ⟨ws, rest2, hdec, hws, hlow, hnum⟩ := matchPatternAt_decomp m1 m2 (c :: cs) v hp
      have h2 : v = pr := Option.some.inj h
      subst h2
      exact ⟨[], ws, rest2, by simpa using hdec, hws, hlow, hnum⟩
    | none =>
      rw [hp] at h
      obtain ⟨pre, ws, rest2, hdec, hws, hlow, hnum⟩ := ih pr h
      refine ⟨c :: pre, ws, rest2, ?_, hws, hlow, hnum⟩
      rw [show ((c :: pre) ++ pr.1 ++ ws ++ pr.2 ++ rest2 : List Char) =
          c :: (pre ++ pr.1 ++ ws ++ pr.2 ++ rest2) by simp, ← hdec]

/-- Helper: the currency-resolution chain only ever produces the four
fixed codes. -/
theorem resolveCurrency_mem (sym : String) :
    resolveCurrency sym ∈ ["NGN", "USD", "EUR", "GBP"] := by
  unfold resolveCurrency
  split_ifs <;> simp

/-- The four marker alternatives, in the priority order the source
tries them. -/
def currencyMarkers : List (String × String) :=
  [("$", "USD"), ("₦", "NGN"), ("€", "EUR"), ("£", "GBP")]

/-- Helper: properties of the result when the extraction committed to a
matched pattern. -/
theorem amountFromMatch_props (text : String) (m1 m2 : String) (r : List Char × List Char)
    (hscan : scanPattern m1.data m2.data text.data = some r)
    (hEA : extractAmount text = amountFromMatch r) :
    (∀ s, (extractAmount text).currency = some s → s ∈ ["NGN", "USD", "EUR", "GBP"]) ∧
    ((extractAmount text).amount.isSome = (extractAmount text).currency.isSome) ∧
    (∀ a, (extractAmount text).amount = some a →
      ∃ pre sym ws num rest2, text.data = pre ++ sym ++ ws ++ num ++ rest2 ∧
        (sym.map Char.toLower = m1.data.map Char.toLower ∨
          sym.map Char.toLower = m2.data.map Char.toLower) ∧
        (ws = [] ∨ ∃ w, ws = [w] ∧ isJsWs w = true) ∧
        (∃ d ds, num = d :: ds ∧ d.isDigit = true) ∧
        a = parseDecimalQ (stripCommas num) ∧
        (extractAmount text).currency = some (resolveCurrency ⟨sym⟩)) := by
  refine ⟨?_, ?_, ?_⟩
  · intro s hs
    rw [hEA] at hs
    have h2 : s = resolveCurrency ⟨r.1⟩ := (Option.some.inj hs).symm
    rw [h2]
    exact resolveCurrency_mem _
  · rw [hEA]
    rfl
  · intro a ha
    obtain ⟨pre, ws, rest2, hdec, hws, hlow, hnum⟩ :=
      scanPattern_decomp m1.data m2.data text.data r hscan
    refine ⟨pre, r.1, ws, r.2, rest2, hdec, hlow, hws, hnum, ?_, ?_⟩
    · rw [hEA] at ha
      exact (Option.some.inj ha).symm
    · rw [hEA]
      rfl

/-- C4 counterexample: a number immediately adjacent *before* the
currency marker does not match — `"15.99 USD"` extracts nothing, while
the marker-first form `"USD 15.99"` extracts 15.99. -/
theorem C4_counterexample :
    extractAmount "15.99 USD" = ⟨none, none⟩ ∧
    extractAmount "USD 15.99" = ⟨some (mkRat 1599 100), some "USD"⟩ :=
  ⟨rfl, rfl⟩

/-- C4 (amended): `extractAmount` tries the currency patterns in the
fixed priority order USD, NGN, EUR, GBP; the first pattern that matches
wins and no further patterns are tried; each pattern matches a number
immediately *after* (not before) the currency marker, separated from it
by at most one whitespace character; the returned currency is always
drawn from {USD, NGN, EUR, GBP}; and when no pattern matches the result
is empty (no amount and no currency). -/
theorem C4_amended_extraction (text : String) :
    (∀ r, scanPattern "$".data "USD".data text.data = some r →
      extractAmount text = amountFromMatch r) ∧
    (scanPattern "$".data "USD".data text.data = none →
      ∀ r, scanPattern "₦".data "NGN".data text.data = some r →
      extractAmount text = amountFromMatch r) ∧
    (scanPattern "$".data "USD".data text.data = none →
      scanPattern "₦".data "NGN".data text.data = none →
      ∀ r, scanPattern "€".data "EUR".data text.data = some r →
      extractAmount text = amountFromMatch r) ∧
    (scanPattern "$".data "USD".data text.data = none →
      scanPattern "₦".data "NGN".data text.data = none →
      scanPattern "€".data "EUR".data text.data = none →
      ∀ r, scanPattern "£".data "GBP".data text.data = some r →
      extractAmount text = amountFromMatch r) ∧
    (scanPattern "$".data "USD".data text.data = none →
      scanPattern "₦".data "NGN".data text.data = none →
      scanPattern "€".data "EUR".data text.data = none →
      scanPattern "£".data "GBP".data text.data = none →
      extractAmount text = ⟨none, none⟩) ∧
    (∀ s, (extractAmount text).currency = some s → s ∈ ["NGN", "USD", "EUR", "GBP"]) ∧
    ((extractAmount text).amount.isSome = (extractAmount text).currency.isSome) ∧
    (∀ a, (extractAmount text).amount = some a →
      ∃ p ∈ currencyMarkers, ∃ pre sym ws num rest2,
        text.data = pre ++ sym ++ ws ++ num ++ rest2 ∧
        (sym.map Char.toLower = p.1.data.map Char.toLower ∨
          sym.map Char.toLower = p.2.data.map Char.toLower) ∧
        (ws = [] ∨ ∃ w, ws = [w] ∧ isJsWs w = true) ∧
        (∃ d ds, num = d :: ds ∧ d.isDigit = true) ∧
        a = parseDecimalQ (stripCommas num) ∧
        (extractAmount text).currency = some (resolveCurrency ⟨sym⟩)) := by
  have hEA : extractAmount text =
      (match scanPattern "$".data "USD".data text.data with
       | some r => amountFromMatch r
       | none =>
         match scanPattern "₦".data "NGN".data text.data with
         | some r => amountFromMatch r
         | none =>
           match scanPattern "€".data "EUR".data text.data with
           | some r => amountFromMatch r
           | none =>
             match scanPattern "£".data "GBP".data text.data with
             | some r => amountFromMatch r
             | none => ⟨none, none⟩) := rfl
  cases h1 : scanPattern "$".data "USD".data text.data with
  | some r1 =>
    rw [h1] at hEA
    dsimp only at hEA
    obtain ⟨hset, hiso, hdecomp⟩ := amountFromMatch_props text "$" "USD" r1 h1 hEA
    refine ⟨fun r hr => by rw [(Option.some.inj hr : r1 = r)] at hEA; exact hEA,
      fun hn => Option.noConfusion hn,
      fun hn => Option.noConfusion hn,
      fun hn => Option.noConfusion hn,
      fun hn => Option.noConfusion hn,
      hset, hiso, ?_⟩
    intro a ha
    obtain ⟨pre, sym, ws, num, rest2, hd, hl, hw, hnm, hav, hcv⟩ := hdecomp a ha
    exact ⟨("$", "USD"), by simp [currencyMarkers],
      pre, sym, ws, num, rest2, hd, hl, hw, hnm, hav, hcv⟩
  | none =>
    rw [h1] at hEA
    dsimp only at hEA
    cases h2 : scanPattern "₦".data "NGN".data text.data with
    | some r2 =>
      rw [h2] at hEA
      dsimp only at hEA
      obtain ⟨hset, hiso, hdecomp⟩ := amountFromMatch_props text "₦" "NGN" r2 h2 hEA
      refine ⟨fun r hr => Option.noConfusion hr,
        fun _ r hr => by rw [(Option.some.inj hr : r2 = r)] at hEA; exact hEA,
        fun _ hn => Option.noConfusion hn,
        fun _ hn => Option.noConfusion hn,
        fun _ hn _ _ => Option.noConfusion hn,
        hset, hiso, ?_⟩
      intro a ha
      obtain ⟨pre, sym, ws, num, rest2, hd, hl, hw, hnm, hav, hcv⟩ := hdecomp a ha
      exact ⟨("₦", "NGN"), by simp [currencyMarkers],
        pre, sym, ws, num, rest2, hd, hl, hw, hnm, hav, hcv⟩
    | none =>
      rw [h2] at hEA
      dsimp only at hEA
      cases h3 : scanPattern "€".data "EUR".data text.data with
      | some r3 =>
        rw [h3] at hEA
        dsimp only at hEA
        obtain ⟨hset, hiso, hdecomp⟩ := amountFromMatch_props text "€" "EUR" r3 h3 hEA
        refine ⟨fun r hr => Option.noConfusion hr,
          fun _ r hr => Option.noConfusion hr,
          fun _ _ r hr => by rw [(Option.some.inj hr : r3 = r)] at hEA; exact hEA,
          fun _ _ hn => Option.noConfusion hn,
          fun _ _ hn _ => Option.noConfusion hn,
          hset, hiso, ?_⟩
        intro a ha
        obtain ⟨pre, sym, ws, num, rest2, hd, hl, hw, hnm, hav, hcv⟩ := hdecomp a ha
        exact ⟨("€", "EUR"), by simp [currencyMarkers],
          pre, sym, ws, num, rest2, hd, hl, hw, hnm, hav, hcv⟩
      | none =>
        rw [h3] at hEA
        dsimp only at hEA
        cases h4 : scanPattern "£".data "GBP".data text.data with
        | some r4 =>
          rw [h4] at hEA
          dsimp only at hEA
          obtain ⟨hset, hiso, hdecomp⟩ := amountFromMatch_props text "£" "GBP" r4 h4 hEA
          refine ⟨fun r hr => Option.noConfusion hr,
            fun _ r hr => Option.noConfusion hr,
            fun _ _ r hr => Option.noConfusion hr,
            fun _ _ _ r hr => by rw [(Option.some.inj hr : r4 = r)] at hEA; exact hEA,
            fun _ _ _ hn => Option.noConfusion hn,
            hset, hiso, ?_⟩
          intro a ha
          obtain ⟨pre, sym, ws, num, rest2, hd, hl, hw, hnm, hav, hcv⟩ := hdecomp a ha
          exact ⟨("£", "GBP"), by simp [currencyMarkers],
            pre, sym, ws, num, rest2, hd, hl, hw, hnm, hav, hcv⟩
        | none =>
          rw [h4] at hEA
          dsimp only at hEA
          refine ⟨fun r hr => Option.noConfusion hr,
            fun _ r hr => Option.noConfusion hr,
            fun _ _ r hr => Option.noConfusion hr,
            fun _ _ _ r hr => Option.noConfusion hr,
            fun _ _ _ _ => hEA, ?_, ?_, ?_⟩
          · intro s hs
            rw [hEA] at hs
            exact absurd hs (by simp)
          · rw [hEA]
            rfl
          · intro a ha
            rw [hEA] at ha
            exact absurd ha (by simp)

/-- C4 witness: concrete applications of the amended extraction
theorem — the USD pattern does not match `"pay ₦2,500 invoice"`, the
NGN pattern does, so the extraction commits to it (amount 2500,
currency NGN); on `"hello world"` no pattern matches and the result is
empty. -/
theorem C4_amended_extraction_witness :
    extractAmount "pay ₦2,500 invoice" =
      amountFromMatch (['₦'], ['2', ',', '5', '0', '0']) ∧
    extractAmount "pay ₦2,500 invoice" = ⟨some (mkRat 2500 1), some "NGN"⟩ ∧
    extractAmount "hello world" = ⟨none, none⟩ ∧
    (∀ s, (extractAmount "pay ₦2,500 invoice").currency = some s →
      s ∈ ["NGN", "USD", "EUR", "GBP"]) :=
  ⟨(C4_amended_extraction "pay ₦2,500 invoice").2.1 rfl
      (['₦'], ['2', ',', '5', '0', '0']) rfl,
   rfl,
   (C4_amended_extraction "hello world").2.2.2.2.1 rfl rfl rfl rfl,
   (C4_amended_extraction "pay ₦2,500 invoice").2.2.2.2.2.1⟩

/-! ## C2 -/

/-- Helper: `collectBuckets` is the fold of `bucketsInsert` over the
flat qualifying-candidate list (and errors agree). -/
theorem collectBuckets_eq_flat (env : ScanEnv) : ∀ (ms : List EmailMsg)
    (bs : List (String × List ParsedSub)),
    collectBuckets env ms bs =
      match flatCandidates env ms with
      | .error e => .error e
      | .ok cs => .ok (cs.foldl (fun b c => bucketsInsert b c.provider c) bs) := by
  intro ms
  induction ms with
  | nil => intro bs; rfl
  | cons m ms ih =>
    intro bs
    have hcb : collectBuckets env (m :: ms) bs =
        (match messageCandidate env m with
         | Except.error e => Except.error e
         | Except.ok Option.none => collectBuckets env ms bs
         | Except.ok (Option.some c) =>
           collectBuckets env ms (bucketsInsert bs c.provider c)) := rfl
    have hfl : flatCandidates env (m :: ms) =
        (match messageCandidate env m with
         | Except.error e => Except.error e
         | Except.ok Option.none => flatCandidates env ms
         | Except.ok (Option.some c) =>
           match flatCandidates env ms with
           | Except.error e => Except.error e
           | Except.ok cs => Except.ok (c :: cs)) := rfl
    rw [hcb, hfl]
    cases hmc : messageCandidate env m with
    | error e => rfl
    | ok oc =>
      cases oc with
      | none => exact ih bs
      | some c =>
        dsimp only
        rw [ih (bucketsInsert bs c.provider c)]
        cases hfc : flatCandidates env ms with
        | error e => rfl
        | ok cs => rfl

/-- Helper: string `==` is symmetric. -/
theorem beq_comm_str (a b : String) : (a == b) = (b == a) := by
  cases h1 : a == b <;> cases h2 : b == a <;> simp_all [beq_iff_eq]

/-- Helper: updating an existing bucket in place keeps every key. -/
theorem bucketsUpdate_keys (bs : List (String × List ParsedSub)) (k : String) (c : ParsedSub) :
    (bs.map (fun b => if b.1 == k then (b.1, b.2 ++ [c]) else b)).map Prod.fst =
      bs.map Prod.fst := by
  induction bs with
  | nil => rfl
  | cons b bs ih =>
    simp only [List.map_cons, ih]
    congr 1
    by_cases hb : (b.1 == k) = true
    · rw [if_pos hb]
    · rw [if_neg hb]

/-- Helper: inserting into the buckets preserves the key list, adding
the key at the end only when it is new. -/
theorem bucketsInsert_keys (bs : List (String × List ParsedSub)) (k : String) (c : ParsedSub) :
    (bucketsInsert bs k c).map Prod.fst =
      if (bs.map Prod.fst).contains k then bs.map Prod.fst
      else bs.map Prod.fst ++ [k] := by
  have hck : (bs.map Prod.fst).contains k = bs.any (fun b => b.1 == k) := by
    induction bs with
    | nil => rfl
    | cons b bs ih =>
      simp only [List.map_cons, List.contains_cons, List.any_cons, ih]
      congr 1
      exact beq_comm_str k b.1
  unfold bucketsInsert
  by_cases ha : bs.any (fun b => b.1 == k) = true
  · rw [if_pos ha, hck, if_pos ha]
    exact bucketsUpdate_keys bs k c
  · rw [if_neg ha, hck, if_neg ha]
    simp

/-- The first-seen key fold the bucket keys follow. -/
def keyInsert (ks : List String) (k : String) : List String :=
  if ks.contains k then ks else ks ++ [k]

/-- Helper: bucket keys of the candidate fold. -/
theorem foldl_buckets_keys (cs : List ParsedSub) : ∀ (bs : List (String × List ParsedSub)),
    (cs.foldl (fun b c => bucketsInsert b c.provider c) bs).map Prod.fst =
      cs.foldl (fun ks c => keyInsert ks c.provider) (bs.map Prod.fst) := by
  induction cs with
  | nil => intro bs; rfl
  | cons c cs ih =>
    intro bs
    rw [List.foldl_cons, List.foldl_cons, ih, bucketsInsert_keys]
    rfl

/-- Helper: the key fold keeps the key list duplicate-free. -/
theorem keyInsert_foldl_nodup (cs : List ParsedSub) : ∀ (ks : List String), ks.Nodup →
    (cs.foldl (fun ks c => keyInsert ks c.provider) ks).Nodup := by
  induction cs with
  | nil => intro ks h; exact h
  | cons c cs ih =>
    intro ks h
    rw [List.foldl_cons]
    unfold keyInsert
    by_cases hc : ks.contains c.provider = true
    · rw [if_pos hc]
      exact ih ks h
    · rw [if_neg hc]
      apply ih
      rw [List.nodup_append]
      refine ⟨h, List.nodup_singleton _, ?_⟩
      intro a ha hb
      rw [List.mem_singleton.mp hb] at ha
      exact hc (List.elem_iff.mpr ha)

/-- The bucket invariant: every bucket is nonempty and homogeneous in
its provider key. -/
def goodBuckets (bs : List (String × List ParsedSub)) : Prop :=
  ∀ b ∈ bs, b.2 ≠ [] ∧ ∀ c ∈ b.2, c.provider = b.1

/-- Helper: `bucketsInsert` preserves the bucket invariant. -/
theorem bucketsInsert_good (bs : List (String × List ParsedSub)) (c : ParsedSub)
    (h : goodBuckets bs) : goodBuckets (bucketsInsert bs c.provider c) := by
  unfold bucketsInsert
  by_cases ha : bs.any (fun b => b.1 == c.provider) = true
  · rw [if_pos ha]
    intro b hb
    obtain ⟨b0, hb0, hfb⟩ := List.mem_map.mp hb
    obtain ⟨hne, hall⟩ := h b0 hb0
    by_cases hk : (b0.1 == c.provider) = true
    · rw [if_pos hk] at hfb
      subst hfb
      refine ⟨by simp [hne], ?_⟩
      intro x hx
      rcases List.mem_append.mp hx with hx1 | hx2
      · exact hall x hx1
      · rw [List.mem_singleton.mp hx2]
        exact (eq_of_beq hk).symm ▸ rfl
    · rw [if_neg hk] at hfb
      subst hfb
      exact ⟨hne, hall⟩
  · rw [if_neg ha]
    intro b hb
    rcases List.mem_append.mp hb with hb1 | hb2
    · exact h b hb1
    · rw [List.mem_singleton.mp hb2]
      exact ⟨by simp, fun x hx => by rw [List.mem_singleton.mp hx]⟩

/-- Helper: the candidate fold preserves the bucket invariant. -/
theorem foldl_buckets_good (cs : List ParsedSub) : ∀ (bs : List (String × List ParsedSub)),
    goodBuckets bs →
    goodBuckets (cs.foldl (fun b c => bucketsInsert b c.provider c) bs) := by
  induction cs with
  | nil => intro bs h; exact h
  | cons c cs ih =>
    intro bs h
    rw [List.foldl_cons]
    exact ih (bucketsInsert bs c.provider c) (bucketsInsert_good bs c h)

/-- Helper: membership through score insertion. -/
theorem insertByScore_mem (now : Int) (x : ParsedSub) : ∀ (l : List ParsedSub) (y : ParsedSub),
    y ∈ insertByScore now x l → y = x ∨ y ∈ l := by
  intro l
  induction l with
  | nil =>
    intro y hy
    exact Or.inl (List.mem_singleton.mp hy)
  | cons z zs ih =>
    intro y hy
    rw [insertByScore_cons] at hy
    by_cases hc : scoresHigher now z x = true
    · rw [if_pos hc] at hy
      rcases List.mem_cons.mp hy with h1 | h2
      · exact Or.inr (List.mem_cons.mpr (Or.inl h1))
      · rcases ih y h2 with h3 | h4
        · exact Or.inl h3
        · exact Or.inr (List.mem_cons.mpr (Or.inr h4))
    · rw [if_neg hc] at hy
      rcases List.mem_cons.mp hy with h1 | h2
      · exact Or.inl h1
      · exact Or.inr h2

/-- Helper: the sorted list only permutes its input's members. -/
theorem sortByScoreDesc_mem (now : Int) : ∀ (l : List ParsedSub) (y : ParsedSub),
    y ∈ sortByScoreDesc now l → y ∈ l := by
  intro l
  induction l with
  | nil => intro y hy; exact absurd hy (by simp [sortByScoreDesc])
  | cons x xs ih =>
    intro y hy
    rw [show sortByScoreDesc now (x :: xs) = insertByScore now x (sortByScoreDesc now xs)
      from rfl] at hy
    rcases insertByScore_mem now x (sortByScoreDesc now xs) y hy with h1 | h2
    · rw [h1]
      exact List.mem_cons_self x xs
    · exact List.mem_cons_of_mem x (ih y h2)

/-- Helper: the selected candidate of a bucket comes from that bucket. -/
theorem pickBest_mem (now : Int) (l : List ParsedSub) (s : ParsedSub)
    (h : pickBest now l = some s) : s ∈ l := by
  cases l with
  | nil => exact Option.noConfusion h
  | cons x xs =>
    cases xs with
    | nil =>
      have h2 : x = s := Option.some.inj h
      rw [← h2]
      exact List.mem_cons_self x []
    | cons y ys =>
      have h2 : (sortByScoreDesc now (x :: y :: ys)).head? = some s := h
      cases hs : sortByScoreDesc now (x :: y :: ys) with
      | nil =>
        rw [hs] at h2
        exact Option.noConfusion h2
      | cons a rest =>
        rw [hs] at h2
        have h3 : a = s := Option.some.inj h2
        rw [← h3]
        exact sortByScoreDesc_mem now (x :: y :: ys) a (by rw [hs]; exact List.mem_cons_self a rest)

/-- Helper: insertion never produces the empty list. -/
theorem insertByScore_ne_nil (now : Int) (x : ParsedSub) (l : List ParsedSub) :
    insertByScore now x l ≠ [] := by
  cases l with
  | nil => simp [insertByScore]
  | cons z zs =>
    rw [insertByScore_cons]
    by_cases hc : scoresHigher now z x = true
    · rw [if_pos hc]
      simp
    · rw [if_neg hc]
      simp

/-- Helper: a nonempty bucket always selects a candidate. -/
theorem pickBest_isSome (now : Int) (l : List ParsedSub) (h : l ≠ []) :
    ∃ s, pickBest now l = some s := by
  cases l with
  | nil => exact absurd rfl h
  | cons x xs =>
    cases xs with
    | nil => exact ⟨x, rfl⟩
    | cons y ys =>
      have h2 : pickBest now (x :: y :: ys) =
          (sortByScoreDesc now (x :: y :: ys)).head? := rfl
      cases hs : sortByScoreDesc now (x :: y :: ys) with
      | nil =>
        exact absurd hs
          (insertByScore_ne_nil now x (sortByScoreDesc now (y :: ys)))
      | cons a rest =>
        exact ⟨a, by rw [h2, hs]; rfl⟩

/-- Helper: under the bucket invariant, step 2 emits exactly one record
per bucket, carrying the bucket's provider, in bucket order. -/
theorem selectFinal_providers (now : Int) : ∀ (bs : List (String × List ParsedSub)),
    goodBuckets bs →
    (selectFinal now bs).map (fun s => s.provider) = bs.map Prod.fst := by
  intro bs
  induction bs with
  | nil => intro _; rfl
  | cons b bs ih =>
    intro h
    obtain ⟨hne, hall⟩ := h b (List.mem_cons_self b bs)
    obtain ⟨s, hsel⟩ := pickBest_isSome now b.2 hne
    have hprov : s.provider = b.1 := hall s (pickBest_mem now b.2 s hsel)
    show ((b :: bs).filterMap (fun b => pickBest now b.2)).map (fun s => s.provider) = _
    rw [List.filterMap_cons, hsel]
    simp only [List.map_cons, hprov]
    have ih2 := ih (fun b2 hb2 => h b2 (List.mem_cons_of_mem b hb2))
    rw [show selectFinal now bs = bs.filterMap (fun b => pickBest now b.2) from rfl] at ih2
    rw [ih2]

/-- C2: on every successful run, the pipeline emits at most one record
per distinct provider display name (the provider list of the output is
duplicate-free), and the records appear in provider-first-seen order:
the output's provider list is exactly the first-seen-order
deduplication of the qualifying candidates' provider list. -/
theorem C2_provider_uniqueness_order (env : ScanEnv) (msgs : List EmailMsg)
    (out : List ParsedSub) (h : parseSubscriptionsFromEmails env msgs = .ok out) :
    (out.map (fun s => s.provider)).Nodup ∧
    ∃ cs, flatCandidates env msgs = .ok cs ∧
      out.map (fun s => s.provider) = dedupFirst (cs.map (fun s => s.provider)) := by
  have hp : parseSubscriptionsFromEmails env msgs =
      (match collectBuckets env msgs [] with
       | Except.error e => Except.error e
       | Except.ok bs => Except.ok (selectFinal env.now bs)) := rfl
  rw [hp, collectBuckets_eq_flat env msgs []] at h
  cases hfc : flatCandidates env msgs with
  | error e =>
    rw [hfc] at h
    exact Except.noConfusion h
  | ok cs =>
    rw [hfc] at h
    dsimp only at h
    have hout : selectFinal env.now (cs.foldl (fun b c => bucketsInsert b c.provider c) []) =
        out := Except.ok.inj h
    have hgood : goodBuckets (cs.foldl (fun b c => bucketsInsert b c.provider c) []) :=
      foldl_buckets_good cs [] (fun b hb => absurd hb (by simp))
    have hkeys := foldl_buckets_keys cs []
    have hsel := selectFinal_providers env.now _ hgood
    constructor
    · rw [← hout, hsel, hkeys]
      exact keyInsert_foldl_nodup cs [] List.nodup_nil
    · refine ⟨cs, rfl, ?_⟩
      rw [← hout, hsel, hkeys]
      unfold dedupFirst
      rw [List.foldl_map]
      rfl

/-- A second provider's qualifying message. -/
def spotifyMsg : EmailMsg :=
  ⟨"4", some "Spotify renewal payment of $9.99 processed", some (.mk [] none none none)⟩

/-- A two-provider environment. -/
def twoProviderEnv : ScanEnv :=
  ⟨[⟨"Netflix", "streaming"⟩, ⟨"Spotify", "music"⟩], 0, fun _ => none⟩

/-- The batch with two qualifying Netflix messages around a Spotify
one. -/
def batchC2 : List EmailMsg := [payloadMsg, spotifyMsg, payloadMsg]

/-- The candidate the pipeline builds for `spotifyMsg` under
`twoProviderEnv`. -/
def spotifyMsgCandidate : ParsedSub where
  provider := "Spotify"
  tag := some "music"
  product := some "cessed"
  amount := some (mkRat 999 100)
  currency := some "USD"
  startDate := some (.valid 0)
  nextBilling := some (.valid (0 + 30 * msPerDay))
  rawData := some ⟨"4", "", some "Spotify renewal payment of $9.99 processed", 0⟩

/-- C2 witness: two qualifying Netflix messages and one Spotify message
yield exactly one record per provider, in first-seen order Netflix,
Spotify. -/
theorem C2_provider_uniqueness_order_witness :
    parseSubscriptionsFromEmails twoProviderEnv batchC2 =
      .ok [payloadMsgCandidate, spotifyMsgCandidate] ∧
    (([payloadMsgCandidate, spotifyMsgCandidate]).map (fun s => s.provider)).Nodup ∧
    ([payloadMsgCandidate, spotifyMsgCandidate]).map (fun s => s.provider) =
      ["Netflix", "Spotify"] ∧
    flatCandidates twoProviderEnv batchC2 =
      .ok [payloadMsgCandidate, spotifyMsgCandidate, payloadMsgCandidate] ∧
    dedupFirst (([payloadMsgCandidate, spotifyMsgCandidate, payloadMsgCandidate]).map
      (fun s => s.provider)) = ["Netflix", "Spotify"] :=
  ⟨rfl,
   (C2_provider_uniqueness_order twoProviderEnv batchC2
      [payloadMsgCandidate, spotifyMsgCandidate] rfl).1,
   rfl, rfl, rfl⟩
